import Mathlib

/-
  Verification of the LCI (Location Configuration Information) codec in
  `LCIcoder.cpp` (bkph/LCIcoder).

  The C program encodes and decodes the IEEE 802.11 / RFC 6225 LCI
  measurement element as a hexadecimal octet string.  The embedding below
  models the hex-string buffer at octet granularity: the C buffer is a
  sequence of hex-digit pairs and every access goes through
  `getoctet`/`putoctet`, which are a bijection between hex pairs and octet
  values, so a `List ℕ` of octets (transmission order) is a faithful view.
  C `double` state is modelled by exact rationals `ℚ`; every claim proved
  here only exercises the doubles on dyadic values where IEEE arithmetic
  is exact.  C `int`/`long long` are modelled by `ℤ` with explicit
  truncation (`% 2^w`, `Int.emod`) at the points where the C code relies
  on two's-complement width.  Each `printf` diagnostic of the codec is
  modelled as a constructor of the `Diag` type, and the decoder also
  returns the list of octet indices it reads, so that memory-safety
  statements can be made about it.
-/

set_option linter.unusedVariables false

/-- Which uncertainty field a range diagnostic talks about. -/
inductive UncField where
  | latU | lonU | altU | zU
  deriving DecidableEq

/-- Which `checksettings` warning fired (decoded/encoded configurations that
make the Android consumer withhold location data). -/
inductive PolicyWhich where
  | retransmission | retention | expiration | movement
  deriving DecidableEq

/-- Which semantic inconsistency between the retention flag and the
expiration value was reported. -/
inductive IncWhich where
  | encRetSetExpZero      -- encode: flag set but expiration == 0
  | encRetClearExpNonzero -- encode: flag clear but expiration != 0
  | decRetSetLenNot3      -- decode: flag set but nlen != 3
  | decRetClearLenNot1    -- decode: flag clear, nlen != 1, expiration != 0
  deriving DecidableEq

/-- One `printf` error/warning of the codec, classified following the
spec's taxonomy (MalformedInput / LengthMismatch / RangeViolation /
SemanticInconsistency / PolicyWarning). -/
inductive Diag where
  /-- "ERROR: bad length code": a declared subelement length would overrun
  the buffer. -/
  | MalformedInput (id nlen nbyt : ℕ)
  /-- "ERROR: Unexpected length ... for <subelement>" (and the colocated
  BSSID "ERROR: length" when `(nlen-1) % 6 != 0`). -/
  | LengthMismatch (id nlen : ℕ)
  /-- "ERROR: <field> uncertainty code ... > MAX" on decode. -/
  | RangeViolation (f : UncField) (code : ℕ)
  /-- "WARNING: Inconsistency ..." between retention flag and expiration. -/
  | SemanticInconsistency (w : IncWhich)
  /-- `checksettings` warnings. -/
  | PolicyWarning (w : PolicyWhich)
  /-- "ERROR: Bad Measurement Element Type". -/
  | BadHeader (a b c : ℕ)
  /-- "ERROR: LCI Version ... is not 1". -/
  | BadVersion (v : ℤ)
  /-- "ERROR: Unrecognized subelement". -/
  | UnknownSubelement (id nlen : ℕ)
  /-- "WARNING: maxBSSIDindicator ... != 0". -/
  | BSSIDIndicatorNonzero (ind : ℕ)
  /-- "WARNING: maxBSSIDindicator ... != (nlen-1)/6". -/
  | BSSIDIndicatorMismatch (ind n : ℕ)
  /-- "ERROR: invalid BSSID format" on encode. -/
  | InvalidBSSID
  /-- "ERROR: uncertainty ... non-positive (while taking log2)". -/
  | UncNonPositive
  /-- "WARNING: uncertainty ... way too large" (code clamped to 1). -/
  | EncUncertaintyTooLarge
  /-- "WARNING: uncertainty ... too small" (code clamped to the max). -/
  | EncUncertaintyTooSmall
  deriving DecidableEq

/-- The global variables of `LCIcoder.cpp` that the codec reads (encode)
and writes (decode), gathered into one record; physical quantities are
`double`s in C, modelled as exact rationals. -/
structure LocationConfiguration where
  latitude : ℚ := 0
  longitude : ℚ := 0
  altitude : ℚ := 0
  latitude_uncertainty : ℚ := 0
  longitude_uncertainty : ℚ := 0
  altitude_uncertainty : ℚ := 0
  Altitude_Type : ℤ := 1
  datum : ℤ := 1
  RegLoc_Agreement : ℤ := 0
  RegLoc_DSE : ℤ := 0
  Dependent_STA : ℤ := 0
  LCI_version : ℤ := 1
  expected_to_move : ℤ := 0
  sta_floor : ℚ := 0
  sta_height_above_floor : ℚ := 0
  sta_height_above_floor_uncertainty : ℚ := 0
  retransmission_allowed : Bool := true
  retention_expires_present : Bool := false
  STA_location_policy : Bool := false
  expiration : ℤ := 0
  /-- colocated BSSIDs; each MAC is its 6 octets (the C strings hold the
  same twelve hex digits that `placeBSSID` copies verbatim). -/
  BSSIDS : List (List ℕ) := []
  -- command-line include flags and the zero-uncertainty policy flag
  smallestflag : Bool := false
  wantLCIflag : Bool := true
  wantZflag : Bool := true
  wantUsageflag : Bool := true
  wantColocatedflag : Bool := true
  deriving DecidableEq

/-- The configuration given by the initializers of the globals in the
source file. -/
def defaultConfig : LocationConfiguration := {}

/-- An octet buffer: the hex string viewed octet by octet, in
transmission order. -/
abbrev Buf := List ℕ

/-- `getoctet(str, nbyt)`: read octet `nbyt` (big-endian hex pair).
Out-of-range reads see the string terminator, whose hex value is 0. -/
def getoctet (buf : Buf) (nbyt : ℕ) : ℕ := buf.getD nbyt 0

/-- `putoctet(str, nbyt, oct)`: write octet `nbyt`. -/
def putoctet (buf : Buf) (nbyt oct : ℕ) : Buf := buf.set nbyt oct

/-- `getnumber(str, nbyt, ndig)`: `ndig`-octet big-endian unsigned
number starting at octet `nbyt` (the C loop accumulates
`res = (res << 8) | getoctet(str, k)`). -/
def getnumber (buf : Buf) (nbyt : ℕ) : ℕ → ℕ
  | 0 => 0
  | n + 1 => getnumber buf nbyt n * 256 + getoctet buf (nbyt + n)

/-- The octet list written by `putnumber(str, nbyt, ndig, num)`:
octet `k` is `(num >> (ndig-1-k)*8) & 0xFF`, with the C `int` argument
reduced mod `2^32` (two's complement). -/
def numberBytes (ndig : ℕ) (num : ℤ) : List ℕ :=
  (List.range ndig).map (fun k => ((num.emod (2 ^ 32)).toNat >>> (8 * (ndig - 1 - k))) &&& 255)

/-- `getbit(str, indx)`: bit `indx` with the mirrored convention --
LSB first within each octet (used only by the LCI subelement). -/
def getbit (buf : Buf) (indx : ℕ) : Bool :=
  (getoctet buf (indx / 8)).testBit (indx % 8)

/-- `getbits(str, bstart, nlen)`: bit `k` of the result is the buffer bit
`bstart + k` (the C loop ors `bit = 1 << k` in). -/
def getbits (buf : Buf) (bstart : ℕ) : ℕ → ℕ
  | 0 => 0
  | n + 1 => (cond (getbit buf bstart) 1 0) + 2 * getbits buf (bstart + 1) n

/-- `putbit(str, indx, bit)`: set or clear one mirrored-order bit
(read-modify-write of the containing octet, as in the C code). -/
def putbit (buf : Buf) (indx : ℕ) (bit : Bool) : Buf :=
  let oct := getoctet buf (indx / 8)
  let mask := 1 <<< (indx % 8)
  putoctet buf (indx / 8) (if bit then oct ||| mask else oct &&& (255 ^^^ mask))

/-- The low 64 bits of a C `long long`, as a natural number (two's
complement). -/
def int64bits (val : ℤ) : ℕ := (val.emod (2 ^ 64)).toNat

/-- Helper for `putbits`: write the `nlen` low bits of `v`, LSB first. -/
def putbitsAux : Buf → ℕ → ℕ → ℕ → Buf
  | buf, _, 0, _ => buf
  | buf, bstart, n + 1, v => putbitsAux (putbit buf bstart (v.testBit 0)) (bstart + 1) n (v / 2)

/-- `putbits(str, bstart, nlen, val)`: bit `k` of the (two's complement,
64-bit `long long`) `val` goes to buffer bit `bstart + k`. -/
def putbits (buf : Buf) (bstart nlen : ℕ) (val : ℤ) : Buf :=
  putbitsAux buf bstart nlen (int64bits val)

/-- `propagate_sign(res, nlen)`: treat an `nlen`-bit field as two's
complement (`res | ~((1 << nlen) - 1)` when the top bit is set; for
`res < 2^nlen`, as produced by `getbits`, that value is `res - 2^nlen`). -/
def propagate_sign (res : ℕ) (nlen : ℕ) : ℤ :=
  if res.testBit (nlen - 1) then (res : ℤ) - 2 ^ nlen else (res : ℤ)

/-- C `roundl`/`round`: round half away from zero. -/
def roundl (x : ℚ) : ℤ :=
  if x < 0 then -⌊-x + 1 / 2⌋ else ⌊x + 1 / 2⌋

/-- C `(int)` cast of a floating value: truncation toward zero. -/
def ctrunc (x : ℚ) : ℤ := x.num.tdiv (x.den : ℤ)

/-- `decodebinarydot(n, m) = exp2(m - n) = 2^{m-n}` (exact for the
exponent ranges the codec uses). -/
def decodebinarydot (n : ℕ) (m : ℤ) : ℚ := (2 : ℚ) ^ (m - (n : ℤ))

/-- Least `k` with `p ≤ q * 2^k` (fuel-driven; any `fuel ≥ log2 (p/q)`
gives the true value). -/
def clog2Up : ℕ → ℕ → ℕ → ℕ
  | _, _, 0 => 0
  | p, q, fuel + 1 => if p ≤ q then 0 else clog2Up p (2 * q) fuel + 1

/-- Greatest `m` with `p * 2^m ≤ q`, assuming `p ≤ q` (fuel-driven). -/
def flog2Down : ℕ → ℕ → ℕ → ℕ
  | _, _, 0 => 0
  | p, q, fuel + 1 => if 2 * p ≤ q then flog2Down (2 * p) q fuel + 1 else 0

/-- `⌈log2 val⌉` for a positive rational, computed exactly on the
numerator/denominator (`⌈log2 (p/q)⌉ = -⌊log2 (q/p)⌋` when `p ≤ q`). -/
def qclog2 (val : ℚ) : ℤ :=
  let p := val.num.toNat
  let q := val.den
  if q < p then (clog2Up p q p : ℤ) else -(flog2Down p q q : ℤ)

/-- Exact-arithmetic model of the C expression
`(int) ceil(log2(val) - eps)` with `eps = 0.000001`, for `val > 0`.
Writing `j = ⌈log2 val⌉` and `t = val * 2^(1-j) ∈ (1, 2]`, the epsilon
lowers the ceiling to `j - 1` exactly when `log2 val ≤ j - 1 + eps`,
i.e. when `t^1000000 ≤ 2`; at `t = 2` (powers of two, where `double`
`log2`/`ceil` are exact) the test is false and the result is `j`. -/
def ceilLog2Eps (val : ℚ) : ℤ :=
  let j := qclog2 val
  let t := val * (2 : ℚ) ^ (1 - j)
  if (2 : ℚ) ≤ t then j
  else if t.num.toNat ^ 1000000 ≤ 2 * t.den ^ 1000000 then j - 1 else j

/-- Values greater than `MAX_LCI_UNCERTAINTY = 34` are reserved for the
6-bit latitude/longitude/altitude uncertainty fields. -/
def MAX_LCI_UNCERTAINTY : ℕ := 34

/-- Values greater than `MAX_Z_UNCERTAINTY = 24` are reserved for the
8-bit STA height-above-floor uncertainty field. -/
def MAX_Z_UNCERTAINTY : ℕ := 24

/-- `encodebinarydot(val, m) = m - ceil(log2(val) - eps)`, returning 0
with an error for non-positive `val`, clamping a non-positive result to
1 and a result above `MAX_LCI_UNCERTAINTY` to `MAX_LCI_UNCERTAINTY`
(each clamp with a warning). -/
def encodebinarydot (val : ℚ) (m : ℤ) : ℕ × List Diag :=
  if val ≤ 0 then (0, [Diag.UncNonPositive])
  else
    let res := m - ceilLog2Eps val
    if res ≤ 0 then (1, [Diag.EncUncertaintyTooLarge])
    else if (MAX_LCI_UNCERTAINTY : ℤ) < res then (MAX_LCI_UNCERTAINTY, [Diag.EncUncertaintyTooSmall])
    else (res.toNat, [])

/-- `checksettings()`: the four Android-compatibility warnings. -/
def checksettings (cfg : LocationConfiguration) : List Diag :=
  (if !cfg.retransmission_allowed then [Diag.PolicyWarning .retransmission] else []) ++
  (if cfg.retention_expires_present then [Diag.PolicyWarning .retention] else []) ++
  (if cfg.expiration ≠ 0 then [Diag.PolicyWarning .expiration] else []) ++
  (if cfg.expected_to_move ≠ 0 then [Diag.PolicyWarning .movement] else [])

/-- `encodeLCIfield`: emit ID 0, length 16, then pack the 128-bit LCI
field through the mirrored bit accessor, fields in the order of the C
code (bit offsets relative to the start of the 16-octet payload; the C
code uses `indx = nbyt << 3` into the full buffer, which is the same
thing octet-aligned).  Returns the emitted octets and the diagnostics of
the three uncertainty encodings. -/
def encodeLCIfield (cfg : LocationConfiguration) : List ℕ × List Diag :=
  let Latitude : ℤ := roundl (cfg.latitude * 2 ^ 25)
  let Longitude : ℤ := roundl (cfg.longitude * 2 ^ 25)
  let Altitude : ℤ := roundl (cfg.altitude * 2 ^ 8)
  let latU := if 0 < cfg.latitude_uncertainty then encodebinarydot cfg.latitude_uncertainty 8
    else if !cfg.smallestflag then (0, []) else (MAX_LCI_UNCERTAINTY, [])
  let lonU := if 0 < cfg.longitude_uncertainty then encodebinarydot cfg.longitude_uncertainty 8
    else if !cfg.smallestflag then (0, []) else (MAX_LCI_UNCERTAINTY, [])
  let altU := if 0 < cfg.altitude_uncertainty then encodebinarydot cfg.altitude_uncertainty 21
    else if !cfg.smallestflag then (0, []) else (MAX_LCI_UNCERTAINTY, [])
  let p0 : Buf := List.replicate 16 0
  let p1 := putbits p0 0 6 (latU.1 : ℤ)
  let p2 := putbits p1 6 34 Latitude
  let p3 := putbits p2 40 6 (lonU.1 : ℤ)
  let p4 := putbits p3 46 34 Longitude
  let p5 := putbits p4 80 4 cfg.Altitude_Type
  let p6 := putbits p5 84 6 (altU.1 : ℤ)
  let p7 := putbits p6 90 30 Altitude
  let p8 := putbits p7 120 3 cfg.datum
  let p9 := putbits p8 123 1 cfg.RegLoc_Agreement
  let p10 := putbits p9 124 1 cfg.RegLoc_DSE
  let p11 := putbits p10 125 1 cfg.Dependent_STA
  let p12 := putbits p11 126 2 cfg.LCI_version
  (0 :: 16 :: p12, latU.2 ++ lonU.2 ++ altU.2)

/-- `encodeZfield`: emit ID 4, length 6, STA floor info (2 bits
expected-to-move, 14 bits floor in 1/16 units), 24-bit height above
floor in 1/4096 units, and the 8-bit height uncertainty code.  The C
`(expected_to_move & 0x03) | (((int)(sta_floor * 16.0)) << 2)` is the
two's complement value `(expected_to_move mod 4) + 4 * trunc(floor*16)`
(the two operands occupy disjoint bit ranges). -/
def encodeZfield (cfg : LocationConfiguration) : List ℕ × List Diag :=
  let STA_Floor_Info : ℤ := cfg.expected_to_move.emod 4 + ctrunc (cfg.sta_floor * 16) * 4
  let STA_Height_Above_Floor : ℤ := ctrunc (cfg.sta_height_above_floor * 4096)
  let u := if 0 < cfg.sta_height_above_floor_uncertainty then
      encodebinarydot cfg.sta_height_above_floor_uncertainty 11
    else if !cfg.smallestflag then (0, []) else (MAX_Z_UNCERTAINTY, [])
  let uc := if MAX_Z_UNCERTAINTY < u.1 then MAX_Z_UNCERTAINTY else u.1
  (4 :: 6 :: (numberBytes 2 STA_Floor_Info ++ numberBytes 3 STA_Height_Above_Floor ++
    numberBytes 1 (uc : ℤ)), u.2)

/-- `encodeUsageField`: reconcile the retention-expires flag with the
expiration value (overriding the global flag, with a warning, when they
disagree), then emit ID 6, length 1 or 3, the parameters octet
(bit0 retransmission, bit1 retention-expires, bit2 location-policy; the
C `|` of the three is their sum) and, when the reconciled flag is set,
two big-endian expiration octets.  Returns the emitted octets, the
configuration with the overridden flag, and the diagnostics. -/
def encodeUsageField (cfg : LocationConfiguration) :
    List ℕ × LocationConfiguration × List Diag :=
  let r := if cfg.retention_expires_present then
      (if cfg.expiration = 0 then (false, 1, [Diag.SemanticInconsistency .encRetSetExpZero])
       else (true, 3, ([] : List Diag)))
    else
      (if cfg.expiration ≠ 0 then (true, 3, [Diag.SemanticInconsistency .encRetClearExpNonzero])
       else (false, 1, ([] : List Diag)))
  let retention := r.1
  let nlen : ℕ := r.2.1
  let parameters : ℕ := (if cfg.retransmission_allowed then 1 else 0) +
    (if retention then 2 else 0) + (if cfg.STA_location_policy then 4 else 0)
  (6 :: nlen :: parameters :: (if retention then numberBytes 2 cfg.expiration else []),
   { cfg with retention_expires_present := retention }, r.2.2)

/-- `placeBSSID`: a MAC whose textual form has the right length
contributes its 6 octets (the C code copies the twelve hex digits
verbatim); anything else is reported and contributes nothing. -/
def placeBSSID (m : List ℕ) : List ℕ × List Diag :=
  if m.length = 6 then (m, []) else ([], [Diag.InvalidBSSID])

/-- `encodeColocatedBSSID`: nothing if the list is empty, else ID 7,
length `6N+1`, the MaxBSSIDIndicator octet -- set to `bssid_index`
(= N) as in the current Android implementation, though the standard
mandates 0 -- then the MACs in order. -/
def encodeColocatedBSSID (cfg : LocationConfiguration) : List ℕ × List Diag :=
  if cfg.BSSIDS.length = 0 then ([], [])
  else
    let N := cfg.BSSIDS.length
    let maxBSSIDindicator := N   -- official value would be 0 (9.4.2.22.10 Fig. 9-224)
    let placed := cfg.BSSIDS.map placeBSSID
    (7 :: (N * 6 + 1) :: maxBSSIDindicator :: (placed.map Prod.fst).flatten,
     (placed.map Prod.snd).flatten)

/-- `needLCIflag` in `encodeLCIstring`: some geodetic value is
non-default (computed from the field values, not from what was
actually emitted). -/
def needLCIflag (cfg : LocationConfiguration) : Prop :=
  cfg.latitude ≠ 0 ∨ cfg.longitude ≠ 0 ∨ cfg.altitude ≠ 0

/-- `needZflag` in `encodeLCIstring`: some Z value is non-default. -/
def needZflag (cfg : LocationConfiguration) : Prop :=
  cfg.sta_floor ≠ 0 ∨ cfg.sta_height_above_floor ≠ 0 ∨
    cfg.sta_height_above_floor_uncertainty ≠ 0

/-- `needBSSIDflag` in `encodeLCIstring`: the BSSID list is non-empty. -/
def needBSSIDflag (cfg : LocationConfiguration) : Prop := 0 < cfg.BSSIDS.length

instance (cfg : LocationConfiguration) : Decidable (needLCIflag cfg) := by
  unfold needLCIflag; infer_instance

instance (cfg : LocationConfiguration) : Decidable (needZflag cfg) := by
  unfold needZflag; infer_instance

instance (cfg : LocationConfiguration) : Decidable (needBSSIDflag cfg) := by
  unfold needBSSIDflag; infer_instance

/-- `encodeLCIstring`: the measurement-report header `01 00 08`, then the
subelements in the order the C code emits them -- LCI, Z, colocated
BSSIDs, Usage -- each under its include-flag; the Usage subelement also
requires that some LCI/Z/BSSID content is non-default ("needed", computed
from the field values whether or not those subelements were emitted).
When no subelement at all is emitted no null terminator is written after
the header, so the string keeps the `'0'`-filled remainder of the
allocated buffer (3 + 18 + 8 + 5 + (2+6N+1) octets).  Returns the octet
string, the final configuration (the Usage encoder can override the
retention flag), and the diagnostics (a `checksettings` pass first, as in
the C `main` flow). -/
def encodeLCIstring (cfg : LocationConfiguration) :
    Buf × LocationConfiguration × List Diag :=
  let d0 := checksettings cfg
  let lci := if cfg.wantLCIflag then encodeLCIfield cfg else ([], [])
  let z := if cfg.wantZflag then encodeZfield cfg else ([], [])
  let b := if cfg.wantColocatedflag ∧ needBSSIDflag cfg then encodeColocatedBSSID cfg else ([], [])
  let u := if cfg.wantUsageflag ∧ (needLCIflag cfg ∨ needZflag cfg ∨ needBSSIDflag cfg) then
      encodeUsageField cfg else ([], cfg, [])
  let body := lci.1 ++ z.1 ++ b.1 ++ u.1
  ([1, 0, 8] ++ (if body = [] then List.replicate (34 + 6 * cfg.BSSIDS.length) 0 else body),
   u.2.1, d0 ++ lci.2 ++ z.2 ++ b.2 ++ u.2.2)

/-- Octet indices read by a `getbits(str, bstart, nlen)` call (each
`getbit` reads the containing octet). -/
def bitReads (bstart nlen : ℕ) : List ℕ :=
  (List.range nlen).map (fun k => (bstart + k) / 8)

/-- Octet indices read by a `getnumber(str, nbyt, ndig)` call. -/
def numReads (nbyt ndig : ℕ) : List ℕ :=
  (List.range ndig).map (fun k => nbyt + k)

/-- `decodeLCIfield`: unpack the 128-bit LCI field starting at bit
`indx` (the C code is handed `str + nbyt*2` and bit 0; passing the full
buffer and bit `8*nbyt` reads the same octets).  Uncertainty codes above
`MAX_LCI_UNCERTAINTY` are clamped with a diagnostic; code 0 means the
uncertainty is unknown; latitude and longitude get their sign bit
propagated.  Returns the updated configuration, the final bit index, the
diagnostics, and the octets read. -/
def decodeLCIfield (cfg : LocationConfiguration) (buf : Buf) (indx : ℕ) :
    LocationConfiguration × ℕ × List Diag × List ℕ :=
  let rawLatU := getbits buf indx 6
  let dA := if MAX_LCI_UNCERTAINTY < rawLatU then [Diag.RangeViolation .latU rawLatU] else []
  let LatU := if MAX_LCI_UNCERTAINTY < rawLatU then MAX_LCI_UNCERTAINTY else rawLatU
  let latitude_uncertainty := if LatU = 0 then 0 else decodebinarydot LatU 8
  let Latitude := propagate_sign (getbits buf (indx + 6) 34) 34
  let rawLonU := getbits buf (indx + 40) 6
  let dB := if MAX_LCI_UNCERTAINTY < rawLonU then [Diag.RangeViolation .lonU rawLonU] else []
  let LonU := if MAX_LCI_UNCERTAINTY < rawLonU then MAX_LCI_UNCERTAINTY else rawLonU
  let longitude_uncertainty := if LonU = 0 then 0 else decodebinarydot LonU 8
  let Longitude := propagate_sign (getbits buf (indx + 46) 34) 34
  let Altitude_Type : ℤ := getbits buf (indx + 80) 4
  let rawAltU := getbits buf (indx + 84) 6
  let dC := if MAX_LCI_UNCERTAINTY < rawAltU then [Diag.RangeViolation .altU rawAltU] else []
  let AltU := if MAX_LCI_UNCERTAINTY < rawAltU then MAX_LCI_UNCERTAINTY else rawAltU
  let altitude_uncertainty := if AltU = 0 then 0 else decodebinarydot AltU 21
  let Altitude := getbits buf (indx + 90) 30
  let datum : ℤ := getbits buf (indx + 120) 3
  let RegLoc_Agreement : ℤ := getbits buf (indx + 123) 1
  let RegLoc_DSE : ℤ := getbits buf (indx + 124) 1
  let Dependent_STA : ℤ := getbits buf (indx + 125) 1
  let LCI_version : ℤ := getbits buf (indx + 126) 2
  let dV := if LCI_version ≠ 1 then [Diag.BadVersion LCI_version] else []
  ({ cfg with
      latitude := (Latitude : ℚ) / 2 ^ 25
      latitude_uncertainty := latitude_uncertainty
      longitude := (Longitude : ℚ) / 2 ^ 25
      longitude_uncertainty := longitude_uncertainty
      Altitude_Type := Altitude_Type
      altitude := (Altitude : ℚ) / 256
      altitude_uncertainty := altitude_uncertainty
      datum := datum
      RegLoc_Agreement := RegLoc_Agreement
      RegLoc_DSE := RegLoc_DSE
      Dependent_STA := Dependent_STA
      LCI_version := LCI_version },
   indx + 128, dA ++ dB ++ dC ++ dV,
   bitReads indx 6 ++ bitReads (indx + 6) 34 ++ bitReads (indx + 40) 6 ++
   bitReads (indx + 46) 34 ++ bitReads (indx + 80) 4 ++ bitReads (indx + 84) 6 ++
   bitReads (indx + 90) 30 ++ bitReads (indx + 120) 3 ++ bitReads (indx + 123) 1 ++
   bitReads (indx + 124) 1 ++ bitReads (indx + 125) 1 ++ bitReads (indx + 126) 2)

/-- The `case Z_CODE` body of the decoder, for `nlen = 6` or the buggy
producer variant `nlen = 5` (16-bit instead of 24-bit height): floor
info, height above floor, and the uncertainty octet, which is *reported*
when above `MAX_Z_UNCERTAINTY` but used as-is.  `nbyt` is the first
payload octet; returns configuration, diagnostics, reads, next octet. -/
def decodeZcase (cfg : LocationConfiguration) (buf : Buf) (nbyt nlen : ℕ) :
    LocationConfiguration × List Diag × List ℕ × ℕ :=
  let STA_Floor_Info := getnumber buf nbyt 2
  let expected_to_move : ℤ := STA_Floor_Info % 4          -- & 0x03
  let sta_floor : ℚ := ((STA_Floor_Info / 4 : ℕ) : ℚ) / 16  -- >> 2, units of 1/16
  let h := if nlen = 5 then (getnumber buf (nbyt + 2) 2, numReads (nbyt + 2) 2, nbyt + 4)
           else (getnumber buf (nbyt + 2) 3, numReads (nbyt + 2) 3, nbyt + 5)
  let STA_Height_Above_Floor := h.1
  let sta_height_above_floor : ℚ := (STA_Height_Above_Floor : ℚ) / 4096
  let u := getoctet buf h.2.2
  let dU := if MAX_Z_UNCERTAINTY < u then [Diag.RangeViolation .zU u] else []
  let sta_height_above_floor_uncertainty : ℚ := if 0 < u then decodebinarydot u 11 else 0
  ({ cfg with
      expected_to_move := expected_to_move
      sta_floor := sta_floor
      sta_height_above_floor := sta_height_above_floor
      sta_height_above_floor_uncertainty := sta_height_above_floor_uncertainty },
   dU, numReads nbyt 2 ++ h.2.1 ++ [h.2.2], h.2.2 + 1)

/-- The `case USAGE_CODE` body of the decoder, for `nlen ∈ {1, 3}`:
the parameters octet, the expiration (0 when `nlen = 1`), and the two
flag/length consistency warnings.  `nbyt` is the first payload octet. -/
def decodeUsageCase (cfg : LocationConfiguration) (buf : Buf) (nbyt nlen : ℕ) :
    LocationConfiguration × List Diag × List ℕ × ℕ :=
  let parameters := getoctet buf nbyt
  let retransmission_allowed := (parameters &&& 1) ≠ 0
  let retention_expires_present := (parameters &&& 2) ≠ 0
  let STA_location_policy := (parameters &&& 4) ≠ 0
  let e := if nlen = 1 then ((0 : ℤ), ([] : List ℕ), nbyt + 1)
    else if nlen = 3 then ((getnumber buf (nbyt + 1) 2 : ℤ), numReads (nbyt + 1) 2, nbyt + 1 + (nlen - 1))
    else (cfg.expiration, [], nbyt + 1)
  let expiration := e.1
  let d1 := if retention_expires_present ∧ nlen ≠ 3 then
      [Diag.SemanticInconsistency .decRetSetLenNot3] else []
  let d2 := if ¬retention_expires_present ∧ nlen ≠ 1 ∧ expiration ≠ 0 then
      [Diag.SemanticInconsistency .decRetClearLenNot1] else []
  ({ cfg with
      retransmission_allowed := retransmission_allowed
      retention_expires_present := retention_expires_present
      STA_location_policy := STA_location_policy
      expiration := expiration },
   d1 ++ d2, [nbyt] ++ e.2.1, e.2.2)

/-- `decodeColocatedBSSID`: read the MaxBSSIDIndicator octet (warning if
nonzero, and a second warning if it then also differs from `(nlen-1)/6`),
then derive the number of MACs from the declared length -- never from the
indicator -- and collect them in order.  `nbyt` is the indicator octet;
returns the MACs, the next octet index, diagnostics, and reads. -/
def decodeColocatedBSSID (buf : Buf) (nbyt nlen : ℕ) :
    List (List ℕ) × ℕ × List Diag × List ℕ :=
  let maxBSSIDindicator := getoctet buf nbyt
  let nBSSID := (nlen - 1) / 6
  let d := if maxBSSIDindicator ≠ 0 then
      [Diag.BSSIDIndicatorNonzero maxBSSIDindicator] ++
      (if maxBSSIDindicator ≠ nBSSID then
        [Diag.BSSIDIndicatorMismatch maxBSSIDindicator nBSSID] else [])
    else []
  let macs := (List.range nBSSID).map
    (fun k => (List.range 6).map (fun j => getoctet buf (nbyt + 1 + 6 * k + j)))
  (macs, nbyt + 1 + 6 * nBSSID, d, nbyt :: (List.range (6 * nBSSID)).map (nbyt + 1 + ·))

/-- The subelement loop of `decodeLCIstring`: read an ID/length octet
pair, stop with a MalformedInput diagnostic if the declared length would
run past the end of the string, otherwise dispatch on the ID (0 = LCI,
4 = Z, 6 = Usage, 7 = colocated BSSIDs, anything else skipped with a
diagnostic) and continue after the subelement.  Every iteration advances
`nbyt` by at least 2, so `fuel = slen` iterations (as supplied by
`decodeLCIstring`) always reach the `nbyt < slen` exit; the loop
condition `str[nbyt*2] != '\0'` of the C code is the same bound for a
hex string of `slen` octets.  Returns the configuration, diagnostics,
and the octet indices read. -/
def decodeLoop (buf : Buf) (slen : ℕ) :
    LocationConfiguration → ℕ → ℕ → LocationConfiguration × List Diag × List ℕ
  | cfg, _, 0 => (cfg, [], [])
  | cfg, nbyt, fuel + 1 =>
    if nbyt < slen then
      let ID := getoctet buf nbyt
      let nlen := getoctet buf (nbyt + 1)
      if slen < nbyt + 2 + nlen then
        (cfg, [Diag.MalformedInput ID nlen (nbyt + 2)], [nbyt, nbyt + 1])
      else
        -- step: (configuration, diagnostics, reads, next octet)
        let step : LocationConfiguration × List Diag × List ℕ × ℕ :=
          match ID with
          | 0 =>
            if nlen = 0 then (cfg, [], [], nbyt + 2)
            else if nlen ≠ 16 then (cfg, [Diag.LengthMismatch 0 nlen], [], nbyt + 2 + nlen)
            else
              let r := decodeLCIfield cfg buf (8 * (nbyt + 2))
              (r.1, r.2.2.1, r.2.2.2, r.2.1 / 8)
          | 4 =>
            let d0 := if nlen ≠ 6 then [Diag.LengthMismatch 4 nlen] else []
            if nlen = 6 ∨ nlen = 5 then
              let r := decodeZcase cfg buf (nbyt + 2) nlen
              (r.1, d0 ++ r.2.1, r.2.2.1, r.2.2.2)
            else (cfg, d0, [], nbyt + 2 + nlen)
          | 6 =>
            if nlen = 1 ∨ nlen = 3 then
              let r := decodeUsageCase cfg buf (nbyt + 2) nlen
              (r.1, r.2.1, r.2.2.1, r.2.2.2)
            else (cfg, [Diag.LengthMismatch 6 nlen], [], nbyt + 2 + nlen)
          | 7 =>
            -- C tests `(nlen-1) % 6 != 0` with int remainder; for nlen = 0 the
            -- remainder is -1, so the test fires exactly when emod 6 is nonzero.
            let d0 := if ((nlen : ℤ) - 1).emod 6 ≠ 0 then [Diag.LengthMismatch 7 nlen] else []
            let r := decodeColocatedBSSID buf (nbyt + 2) nlen
            ({ cfg with BSSIDS := r.1 }, d0 ++ r.2.2.1, r.2.2.2, r.2.1)
          | _ => (cfg, [Diag.UnknownSubelement ID nlen], [], nbyt + 2 + nlen)
        let rest := decodeLoop buf slen step.1 step.2.2.2 fuel
        (rest.1, step.2.1 ++ rest.2.1, [nbyt, nbyt + 1] ++ step.2.2.1 ++ rest.2.2)
    else (cfg, [], [])

/-- `decodeLCIstring`: check the three header octets (Token 1, Request
Mode 0, Type 8), run the subelement loop from octet 3, then run the
`checksettings` policy pass on the decoded configuration.  Returns the
configuration, the diagnostics, and the octet indices read. -/
def decodeLCIstring (cfg : LocationConfiguration) (buf : Buf) :
    LocationConfiguration × List Diag × List ℕ :=
  let slen := buf.length
  let a := getoctet buf 0
  let b := getoctet buf 1
  let c := getoctet buf 2
  let d0 := if a ≠ 1 ∨ b ≠ 0 ∨ c ≠ 8 then [Diag.BadHeader a b c] else []
  let r := decodeLoop buf slen cfg 3 slen
  (r.1, d0 ++ r.2.1 ++ checksettings r.1, [0, 1, 2] ++ r.2.2)

/-- Walk the ID/length structure of an encoded element from octet
`nbyt` on, listing the subelement IDs in emission order (a reader's view
of the wire layout, used to state ordering/emission claims). -/
def subIDsAux (buf : Buf) : ℕ → ℕ → List ℕ
  | _, 0 => []
  | nbyt, fuel + 1 =>
    if nbyt + 1 < buf.length then
      getoctet buf nbyt :: subIDsAux buf (nbyt + 2 + getoctet buf (nbyt + 1)) fuel
    else []

/-- The subelement IDs of an encoded LCI element, in emission order
(after the 3-octet measurement-report header). -/
def subelementIDs (buf : Buf) : List ℕ := subIDsAux buf 3 buf.length

/-- A well-formed subelement chunk: an ID octet, a length octet, and
exactly that many payload octets. -/
def IsChunk (c : List ℕ) (id : ℕ) : Prop :=
  ∃ len payload, c = id :: len :: payload ∧ List.length payload = len

/-- A configuration exhibiting the emission order of `encodeLCIstring`:
default include-flags, non-default latitude, one colocated BSSID. -/
def cfgOrder : LocationConfiguration :=
  { latitude := 1, BSSIDS := [[0x11, 0x22, 0x33, 0x44, 0x55, 0x66]] }

/-- A configuration whose only wanted subelement is Usage, with
non-default latitude (so Usage is "needed"). -/
def cfgOnlyUsage : LocationConfiguration :=
  { latitude := 1, wantLCIflag := false, wantZflag := false, wantColocatedflag := false }

/-- A configuration with floor -1 (an exact multiple of 1/16) whose only
wanted subelement is Z. -/
def cfgFloorNeg : LocationConfiguration :=
  { sta_floor := -1, wantLCIflag := false, wantColocatedflag := false,
    wantUsageflag := false }

/-- A configuration with altitude -1 and uncertainties that are exact
powers of two with in-range exponent codes (10, 10, 13), wanting only
the LCI subelement. -/
def cfgAltNeg : LocationConfiguration :=
  { altitude := -1,
    latitude_uncertainty := (2 : ℚ) ^ ((8 : ℤ) - (10 : ℕ)),
    longitude_uncertainty := (2 : ℚ) ^ ((8 : ℤ) - (10 : ℕ)),
    altitude_uncertainty := (2 : ℚ) ^ ((21 : ℤ) - (13 : ℕ)),
    wantZflag := false, wantColocatedflag := false, wantUsageflag := false }

/-- The subelement chunks `encodeLCIstring` concatenates into the body,
one list entry per emitted subelement, under exactly the conditions of
the encoder (a reader's view of the emission structure, used to state
ordering/emission claims). -/
def emittedChunks (cfg : LocationConfiguration) : List (List ℕ) :=
  (if cfg.wantLCIflag then [(encodeLCIfield cfg).1] else []) ++
  (if cfg.wantZflag then [(encodeZfield cfg).1] else []) ++
  (if cfg.wantColocatedflag ∧ needBSSIDflag cfg then [(encodeColocatedBSSID cfg).1] else []) ++
  (if cfg.wantUsageflag ∧ (needLCIflag cfg ∨ needZflag cfg ∨ needBSSIDflag cfg) then
    [(encodeUsageField cfg).1] else [])

/-- The subelement IDs `encodeLCIstring` emits, in emission order. -/
def emittedIDs (cfg : LocationConfiguration) : List ℕ :=
  (if cfg.wantLCIflag then [0] else []) ++
  (if cfg.wantZflag then [4] else []) ++
  (if cfg.wantColocatedflag ∧ needBSSIDflag cfg then [7] else []) ++
  (if cfg.wantUsageflag ∧ (needLCIflag cfg ∨ needZflag cfg ∨ needBSSIDflag cfg) then
    [6] else [])

/-- A configuration on the encoder's grid: dyadic coordinates, integer
altitude/floor/height, power-of-two uncertainties with in-range codes
(10, 10, 13, 4), no colocated BSSIDs. -/
def cfgRound : LocationConfiguration :=
  { latitude := (1 : ℚ) / 2 ^ 25,
    longitude := -(1 : ℚ) / 2 ^ 25,
    altitude := 1, sta_floor := 1, sta_height_above_floor := 1,
    latitude_uncertainty := (2 : ℚ) ^ ((8 : ℤ) - (10 : ℤ)),
    longitude_uncertainty := (2 : ℚ) ^ ((8 : ℤ) - (10 : ℤ)),
    altitude_uncertainty := (2 : ℚ) ^ ((21 : ℤ) - (13 : ℤ)),
    sta_height_above_floor_uncertainty := (2 : ℚ) ^ ((11 : ℤ) - (4 : ℤ)) }

/-! ### Lemmas about the octet and bit accessors -/

theorem length_putoctet (buf : Buf) (i v : ℕ) : (putoctet buf i v).length = buf.length :=
  List.length_set buf i v

theorem getoctet_putoctet_self (buf : Buf) (i v : ℕ) (h : i < buf.length) :
    getoctet (putoctet buf i v) i = v := by
  simp [getoctet, putoctet, List.getD, List.getElem?_set_self', h]

theorem getoctet_putoctet_ne (buf : Buf) (i j v : ℕ) (h : i ≠ j) :
    getoctet (putoctet buf j v) i = getoctet buf i := by
  simp [getoctet, putoctet, List.getD, List.getElem?_set_ne (Ne.symm h)]

theorem getoctet_append_left (a b : Buf) (i : ℕ) (h : i < a.length) :
    getoctet (a ++ b) i = getoctet a i := by
  unfold getoctet
  rw [List.getD_append _ _ _ _ h]

theorem getoctet_append_right (a b : Buf) (i : ℕ) (h : a.length ≤ i) :
    getoctet (a ++ b) i = getoctet b (i - a.length) := by
  unfold getoctet
  rw [List.getD_append_right _ _ _ _ h]

theorem getoctet_nil (i : ℕ) : getoctet [] i = 0 := by
  simp [getoctet]

theorem getoctet_replicate (n v i : ℕ) :
    getoctet (List.replicate n v) i = if i < n then v else 0 := by
  rcases Nat.lt_or_ge i n with h | h
  · simp [getoctet, List.getD, List.getElem?_replicate, h]
  · rw [getoctet, List.getD, List.get?_eq_getElem?, List.getElem?_eq_none (by simpa using h)]
    simp [Nat.not_lt.mpr h]

theorem length_putbit (buf : Buf) (i : ℕ) (b : Bool) : (putbit buf i b).length = buf.length :=
  List.length_set _ _ _

/-- `1 <<< n` is the `n`-th power of two. -/
theorem one_shiftLeft_eq (n : ℕ) : (1 : ℕ) <<< n = 2 ^ n := by
  rw [Nat.shiftLeft_eq, one_mul]

/-- Writing bit `j` leaves every other bit unchanged. -/
theorem getbit_putbit_ne (buf : Buf) (i j : ℕ) (b : Bool) (h : i ≠ j) :
    getbit (putbit buf j b) i = getbit buf i := by
  simp only [getbit, putbit]
  by_cases hoct : i / 8 = j / 8
  · have hbit : i % 8 ≠ j % 8 := by omega
    rcases Nat.lt_or_ge (j / 8) buf.length with hlen | hlen
    · rw [hoct, getoctet_putoctet_self _ _ _ hlen]
      cases b with
      | true =>
        simp only [if_true, Nat.testBit_or, one_shiftLeft_eq, Nat.testBit_two_pow]
        simp [Ne.symm hbit]
      | false =>
        simp only [if_false, Nat.testBit_and, Nat.testBit_xor, one_shiftLeft_eq,
          Nat.testBit_two_pow]
        have h255 : (255 : ℕ).testBit (i % 8) = true := by
          have he : (255 : ℕ) = 2 ^ 8 - 1 := by norm_num
          rw [he, Nat.testBit_two_pow_sub_one]
          simp; omega
        simp [h255, Ne.symm hbit]
    · rw [putoctet, List.set_eq_of_length_le hlen]
  · rw [getoctet_putoctet_ne _ _ _ _ hoct]

/-- Writing bit `j` (in range) then reading it back gives the bit. -/
theorem getbit_putbit_self (buf : Buf) (j : ℕ) (b : Bool) (h : j / 8 < buf.length) :
    getbit (putbit buf j b) j = b := by
  simp only [getbit, putbit]
  rw [getoctet_putoctet_self _ _ _ h]
  cases b with
  | true =>
    simp [Nat.testBit_or, one_shiftLeft_eq, Nat.testBit_two_pow]
  | false =>
    have h255 : (255 : ℕ).testBit (j % 8) = true := by
      have he : (255 : ℕ) = 2 ^ 8 - 1 := by norm_num
      rw [he, Nat.testBit_two_pow_sub_one]
      simp; omega
    simp [Nat.testBit_and, Nat.testBit_xor, one_shiftLeft_eq, Nat.testBit_two_pow, h255]

theorem length_putbitsAux (buf : Buf) (s n v : ℕ) :
    (putbitsAux buf s n v).length = buf.length := by
  induction n generalizing buf s v with
  | zero => rfl
  | succ k ih => rw [putbitsAux, ih, length_putbit]

theorem length_putbits (buf : Buf) (s n : ℕ) (val : ℤ) :
    (putbits buf s n val).length = buf.length := length_putbitsAux _ _ _ _

/-- A bit outside the written range is unchanged by `putbitsAux`. -/
theorem getbit_putbitsAux_out (buf : Buf) (s n v i : ℕ) (h : i < s ∨ s + n ≤ i) :
    getbit (putbitsAux buf s n v) i = getbit buf i := by
  induction n generalizing buf s v with
  | zero => rfl
  | succ k ih =>
    rw [putbitsAux, ih _ _ _ (by omega), getbit_putbit_ne _ _ _ _ (by omega)]

/-- A bit inside the written range becomes the corresponding bit of `v`
(all the touched octets must be in range). -/
theorem getbit_putbitsAux_in (buf : Buf) (s n v i : ℕ) (h1 : s ≤ i) (h2 : i < s + n)
    (hlen : s + n ≤ 8 * buf.length) :
    getbit (putbitsAux buf s n v) i = v.testBit (i - s) := by
  induction n generalizing buf s v with
  | zero => omega
  | succ k ih =>
    rw [putbitsAux]
    rcases Nat.eq_or_lt_of_le h1 with rfl | hgt
    · rw [getbit_putbitsAux_out _ _ _ _ _ (by omega),
        getbit_putbit_self _ _ _ (by omega), Nat.sub_self]
    · rw [ih _ _ _ (by omega) (by omega) (by rw [length_putbit]; omega)]
      have : i - s = (i - (s + 1)) + 1 := by omega
      rw [this, Nat.testBit_div_two, Nat.testBit_succ]

/-- Octets wholly outside the written bit range are unchanged. -/
theorem getoctet_putbitsAux_out (buf : Buf) (s n v i : ℕ)
    (h : 8 * i + 8 ≤ s ∨ s + n ≤ 8 * i) :
    getoctet (putbitsAux buf s n v) i = getoctet buf i := by
  induction n generalizing buf s v with
  | zero => rfl
  | succ k ih =>
    rw [putbitsAux, ih _ _ _ (by omega)]
    unfold putbit
    rcases eq_or_ne i (s / 8) with rfl | hne
    · omega
    · rw [getoctet_putoctet_ne _ _ _ _ hne]

/-- If the bits of a region agree with the bits of `v`, `getbits`
recovers `v % 2^n`. -/
theorem getbits_eq_of_testBit (buf : Buf) (s n v : ℕ)
    (h : ∀ k, k < n → getbit buf (s + k) = v.testBit k) :
    getbits buf s n = v % 2 ^ n := by
  induction n generalizing buf s v with
  | zero => simp [getbits, Nat.mod_one]
  | succ k ih =>
    rw [getbits, ih buf (s + 1) (v / 2) (fun j hj => by
      rw [show s + 1 + j = s + (j + 1) by omega, h _ (by omega), Nat.testBit_div_two,
        Nat.testBit_succ])]
    have h0 := h 0 (by omega)
    rw [Nat.add_zero] at h0
    rw [h0]
    have hsplit : v % 2 ^ (k + 1) = v % 2 + 2 * (v / 2 % 2 ^ k) := by
      rw [pow_succ, mul_comm, Nat.mod_mul]
    rw [hsplit]
    cases hb : v.testBit 0 with
    | true =>
      have hv : v % 2 = 1 := by simpa [Nat.testBit_to_div_mod] using hb
      simp [hv]
    | false =>
      have hv : v % 2 = 0 := by
        have := hb
        simp [Nat.testBit_to_div_mod] at this
        omega
      simp [hv]

/-- `getbits` over a freshly `putbitsAux`-written region. -/
theorem getbits_putbitsAux (buf : Buf) (s n v : ℕ) (hlen : s + n ≤ 8 * buf.length) :
    getbits (putbitsAux buf s n v) s n = v % 2 ^ n :=
  getbits_eq_of_testBit _ _ _ _ (fun k hk => by
    rw [getbit_putbitsAux_in _ _ _ _ _ (by omega) (by omega) hlen, Nat.add_sub_cancel_left])

/-- `getbits` of a disjoint region is unchanged by `putbitsAux`. -/
theorem getbits_putbitsAux_disjoint (buf : Buf) (s n t m v : ℕ)
    (h : s + n ≤ t ∨ t + m ≤ s) :
    getbits (putbitsAux buf t m v) s n = getbits buf s n := by
  induction n generalizing s with
  | zero => rfl
  | succ k ih =>
    rw [getbits, getbits, ih _ (by omega), getbit_putbitsAux_out _ _ _ _ _ (by omega)]

/-! ### Reading across list concatenation -/

theorem getbit_append_left (a b : Buf) (i : ℕ) (h : i < 8 * a.length) :
    getbit (a ++ b) i = getbit a i := by
  unfold getbit
  rw [getoctet_append_left _ _ _ (by omega)]

theorem getbit_append_right (a b : Buf) (i : ℕ) (h : 8 * a.length ≤ i) :
    getbit (a ++ b) i = getbit b (i - 8 * a.length) := by
  unfold getbit
  rw [getoctet_append_right _ _ _ (by omega)]
  have h1 : (i - 8 * a.length) / 8 = i / 8 - a.length := by omega
  have h2 : (i - 8 * a.length) % 8 = i % 8 := by omega
  rw [h1, h2]

/-- Shifted congruence for `getbits`. -/
theorem getbits_congr (buf1 buf2 : Buf) (s1 s2 n : ℕ)
    (h : ∀ k, k < n → getbit buf1 (s1 + k) = getbit buf2 (s2 + k)) :
    getbits buf1 s1 n = getbits buf2 s2 n := by
  induction n generalizing s1 s2 with
  | zero => rfl
  | succ k ih =>
    rw [getbits, getbits, ih (s1 + 1) (s2 + 1) (fun j hj => by
      rw [show s1 + 1 + j = s1 + (j + 1) by omega, show s2 + 1 + j = s2 + (j + 1) by omega]
      exact h _ (by omega))]
    have h0 := h 0 (by omega)
    rw [Nat.add_zero, Nat.add_zero] at h0
    rw [h0]

theorem getbits_append_left (a b : Buf) (s n : ℕ) (h : s + n ≤ 8 * a.length) :
    getbits (a ++ b) s n = getbits a s n :=
  getbits_congr _ _ _ _ _ (fun k hk => getbit_append_left _ _ _ (by omega))

theorem getbits_append_right (a b : Buf) (s n : ℕ) (h : 8 * a.length ≤ s) :
    getbits (a ++ b) s n = getbits b (s - 8 * a.length) n :=
  getbits_congr _ _ _ _ _ (fun k hk => by
    rw [getbit_append_right _ _ _ (by omega)]
    congr 1
    omega)

theorem getnumber_congr (buf1 buf2 : Buf) (p1 p2 n : ℕ)
    (h : ∀ k, k < n → getoctet buf1 (p1 + k) = getoctet buf2 (p2 + k)) :
    getnumber buf1 p1 n = getnumber buf2 p2 n := by
  induction n with
  | zero => rfl
  | succ k ih =>
    rw [getnumber, getnumber, ih (fun j hj => h _ (by omega)), h _ (by omega)]

theorem getnumber_append_right (a b : Buf) (p n : ℕ) (h : a.length ≤ p) :
    getnumber (a ++ b) p n = getnumber b (p - a.length) n :=
  getnumber_congr _ _ _ _ _ (fun k hk => by
    rw [getoctet_append_right _ _ _ (by omega)]
    congr 1
    omega)

/-! ### Recombining `numberBytes` through `getnumber` -/

theorem length_numberBytes (ndig : ℕ) (num : ℤ) : (numberBytes ndig num).length = ndig := by
  simp [numberBytes]

theorem getoctet_numberBytes (ndig : ℕ) (num : ℤ) (j : ℕ) (h : j < ndig) :
    getoctet (numberBytes ndig num) j =
      ((num.emod (2 ^ 32)).toNat >>> (8 * (ndig - 1 - j))) &&& 255 := by
  unfold getoctet numberBytes
  rw [List.getD, List.get?_eq_getElem?, List.getElem?_map, List.getElem?_range h]
  rfl

theorem and255_eq_mod (x : ℕ) : x &&& 255 = x % 256 := by
  have h : (255 : ℕ) = 2 ^ 8 - 1 := by norm_num
  rw [h, Nat.and_pow_two_sub_one_eq_mod]

/-- Big-endian byte recombination: if the octets at `p .. p+ndig-1` hold
the big-endian bytes of `v`, `getnumber` returns `v` modulo `2^(8·ndig)`. -/
theorem getnumber_eq_of_bytes (buf : Buf) (p ndig v : ℕ)
    (h : ∀ j, j < ndig → getoctet buf (p + j) = (v >>> (8 * (ndig - 1 - j))) &&& 255) :
    getnumber buf p ndig = v % 2 ^ (8 * ndig) := by
  induction ndig generalizing v with
  | zero => simp [getnumber, Nat.mod_one]
  | succ k ih =>
    rw [getnumber, ih (v >>> 8) (fun j hj => by
      rw [h _ (by omega), show 8 * (k + 1 - 1 - j) = 8 + 8 * (k - 1 - j) by omega,
        Nat.shiftRight_add])]
    have hlast := h k (by omega)
    have hz : k + 1 - 1 - k = 0 := by omega
    rw [hz, Nat.mul_zero, Nat.shiftRight_zero, and255_eq_mod] at hlast
    rw [hlast]
    have hsplit : v % 2 ^ (8 * (k + 1)) = v % 2 ^ 8 + 2 ^ 8 * (v >>> 8 % 2 ^ (8 * k)) := by
      rw [Nat.shiftRight_eq_div_pow, show 8 * (k + 1) = 8 + 8 * k by ring, pow_add, Nat.mod_mul]
    rw [hsplit, show (2:ℕ) ^ 8 = 256 by norm_num, show (256:ℕ) = 2 ^ 8 by norm_num]
    have : v % 2 ^ 8 = v % 256 := by norm_num
    rw [this]
    omega

/-! ### Integer and rounding helpers -/

/-- Reducing the 64-bit two's complement image modulo a smaller power of
two gives the two's complement image at that width. -/
theorem int64bits_mod (val : ℤ) (n : ℕ) (h : n ≤ 64) :
    int64bits val % 2 ^ n = (val.emod (2 ^ n)).toNat := by
  unfold int64bits
  have hd : ((2 : ℤ) ^ n) ∣ (2 : ℤ) ^ 64 := pow_dvd_pow 2 h
  have h1 : ((val.emod (2 ^ 64)).toNat : ℤ) = val.emod (2 ^ 64) :=
    Int.toNat_of_nonneg (Int.emod_nonneg _ (by positivity))
  have h2 : (val.emod (2 ^ 64)).emod (2 ^ n) = val.emod (2 ^ n) := Int.emod_emod_of_dvd _ hd
  have h3 : (((val.emod (2 ^ 64)).toNat % 2 ^ n : ℕ) : ℤ) = val.emod (2 ^ n) := by
    calc (((val.emod (2 ^ 64)).toNat % 2 ^ n : ℕ) : ℤ)
        = ((val.emod (2 ^ 64)).toNat : ℤ) % ((2 ^ n : ℕ) : ℤ) := by push_cast; ring
      _ = (val.emod (2 ^ 64)).emod (2 ^ n) := by rw [h1]; push_cast; rfl
      _ = val.emod (2 ^ n) := h2
  -- pass to naturals: both sides are the same nonnegative integer
  have h5 := congrArg Int.toNat h3
  rw [Int.toNat_natCast] at h5
  exact h5

/-- Recovering a signed value from its 34-bit two's complement image
(the width `propagate_sign` is used with in the decoder). -/
theorem propagate_sign_emod34 (x : ℤ) (h1 : -(2 ^ 33) ≤ x) (h2 : x < 2 ^ 33) :
    propagate_sign ((x.emod (2 ^ 34)).toNat) 34 = x := by
  have hnn : 0 ≤ x.emod (2 ^ 34) := Int.emod_nonneg _ (by norm_num)
  have hr : ((x.emod (2 ^ 34)).toNat : ℤ) = x % 17179869184 := by
    rw [Int.toNat_of_nonneg hnn]
    show x % (2 ^ 34) = _
    norm_num
  unfold propagate_sign
  rw [show (34 : ℕ) - 1 = 33 by norm_num, Nat.testBit_to_div_mod]
  split
  · rename_i ht
    simp only [decide_eq_true_eq] at ht
    norm_num at ht h1 h2 hr ⊢
    omega
  · rename_i ht
    simp only [decide_eq_true_eq] at ht
    norm_num at ht h1 h2 hr ⊢
    omega

/-- C `roundl` on a value that is already an integer. -/
theorem roundl_intCast (k : ℤ) : roundl ((k : ℚ)) = k := by
  unfold roundl
  have hhalf : ⌊(1 / 2 : ℚ)⌋ = 0 := by norm_num
  split
  · rw [show -((k : ℚ)) = (((-k : ℤ)) : ℚ) by push_cast; ring, Int.floor_int_add, hhalf]
    omega
  · rw [Int.floor_int_add, hhalf]
    omega

/-- C truncation on a value that is already an integer. -/
theorem ctrunc_intCast (k : ℤ) : ctrunc ((k : ℚ)) = k := by
  unfold ctrunc
  rw [Rat.num_intCast, Rat.den_intCast]
  exact Int.tdiv_one k

/-! ### The exact log2 helpers on powers of two -/

theorem clog2Up_pow (d : ℕ) : ∀ b fuel, d ≤ fuel → clog2Up (2 ^ (b + d)) (2 ^ b) fuel = d := by
  induction d with
  | zero =>
    intro b fuel _
    simp only [Nat.add_zero]
    cases fuel with
    | zero => rfl
    | succ f => rw [clog2Up, if_pos (by omega)]
  | succ d ih =>
    intro b fuel hfuel
    cases fuel with
    | zero => omega
    | succ f =>
      rw [clog2Up, if_neg (by
        have : (2 : ℕ) ^ b < 2 ^ (b + (d + 1)) :=
          Nat.pow_lt_pow_right (by omega) (show b < b + (d + 1) by omega)
        omega)]
      rw [show 2 * 2 ^ b = 2 ^ (b + 1) by rw [pow_succ]; ring,
        show b + (d + 1) = (b + 1) + d by omega, ih (b + 1) f (by omega)]

theorem flog2Down_pow (e : ℕ) : ∀ a fuel, e ≤ fuel → flog2Down (2 ^ a) (2 ^ (a + e)) fuel = e := by
  induction e with
  | zero =>
    intro a fuel _
    simp only [Nat.add_zero]
    cases fuel with
    | zero => rfl
    | succ f =>
      rw [flog2Down, if_neg (by
        have : 0 < 2 ^ a := Nat.pos_pow_of_pos _ (by omega)
        omega)]
  | succ e ih =>
    intro a fuel hfuel
    cases fuel with
    | zero => omega
    | succ f =>
      rw [flog2Down, if_pos (by
        rw [show 2 * 2 ^ a = 2 ^ (a + 1) by rw [pow_succ]; ring]
        exact Nat.pow_le_pow_right (by omega) (by omega))]
      rw [show 2 * 2 ^ a = 2 ^ (a + 1) by rw [pow_succ]; ring,
        show a + (e + 1) = (a + 1) + e by omega, ih (a + 1) f (by omega)]

/-- Numerator and denominator of a positive power of two. -/
theorem num_den_two_pow (n : ℕ) :
    ((2 : ℚ) ^ (n : ℤ)).num = 2 ^ n ∧ ((2 : ℚ) ^ (n : ℤ)).den = 1 := by
  rw [zpow_natCast, show ((2 : ℚ) ^ n) = (((2 ^ n : ℕ) : ℚ)) by push_cast; ring]
  constructor
  · rw [Rat.num_natCast]
    push_cast
    ring
  · rw [Rat.den_natCast]

/-- Numerator and denominator of a negative power of two. -/
theorem num_den_two_zpow_neg (n : ℕ) :
    ((2 : ℚ) ^ (Int.negSucc n)).num = 1 ∧ ((2 : ℚ) ^ (Int.negSucc n)).den = 2 ^ (n + 1) := by
  rw [zpow_negSucc, show ((2 : ℚ) ^ (n + 1)) = (((2 ^ (n + 1) : ℕ) : ℚ)) by push_cast; ring]
  have hp : 0 < 2 ^ (n + 1) := Nat.pos_pow_of_pos _ (by omega)
  exact ⟨Rat.inv_natCast_num_of_pos hp, Rat.inv_natCast_den_of_pos hp⟩

/-- `clog2Up` with fuel `2^n` computes the exact ceiling log of `2^n`. -/
theorem clog2Up_pow_self (n : ℕ) : clog2Up (2 ^ n) 1 (2 ^ n) = n := by
  have h1 : (1 : ℕ) = 2 ^ 0 := rfl
  rw [h1, show (2 : ℕ) ^ n = 2 ^ (0 + n) by rw [Nat.zero_add]]
  exact clog2Up_pow n 0 _ (le_of_lt (by rw [Nat.zero_add]; exact Nat.lt_two_pow n))

/-- `flog2Down` with fuel `2^n` computes the exact floor log of `2^n`. -/
theorem flog2Down_pow_self (n : ℕ) : flog2Down 1 (2 ^ n) (2 ^ n) = n := by
  have h1 : (1 : ℕ) = 2 ^ 0 := rfl
  rw [h1, show (2 : ℕ) ^ n = 2 ^ (0 + n) by rw [Nat.zero_add]]
  exact flog2Down_pow n 0 _ (le_of_lt (by rw [Nat.zero_add]; exact Nat.lt_two_pow n))

/-- `qclog2` is exact on powers of two. -/
theorem qclog2_two_zpow (k : ℤ) : qclog2 ((2 : ℚ) ^ k) = k := by
  cases k with
  | ofNat n =>
    have hnum := (num_den_two_pow n).1
    have hden := (num_den_two_pow n).2
    unfold qclog2
    rw [show ((Int.ofNat n) : ℤ) = (n : ℤ) from rfl] at *
    rw [hnum, hden]
    have htn : ((2 : ℤ) ^ n).toNat = 2 ^ n := by
      rw [show ((2 : ℤ) ^ n) = (((2 ^ n : ℕ) : ℤ)) by push_cast; ring, Int.toNat_natCast]
    rw [htn]
    cases n with
    | zero => norm_num [flog2Down]
    | succ m =>
      rw [if_pos (Nat.one_lt_two_pow (by omega))]
      norm_cast
      exact clog2Up_pow_self (m + 1)
  | negSucc n =>
    have hnum := (num_den_two_zpow_neg n).1
    have hden := (num_den_two_zpow_neg n).2
    unfold qclog2
    rw [hnum, hden, Int.toNat_one]
    rw [if_neg (by
      have : (1 : ℕ) ≤ 2 ^ (n + 1) := Nat.one_le_two_pow
      omega)]
    rw [flog2Down_pow_self (n + 1)]
    simp [Int.negSucc_eq]

/-- The epsilon-adjusted ceiling is exact on powers of two: at `2^k` the
value `t` is exactly 2, so the epsilon test does not fire. -/
theorem ceilLog2Eps_two_zpow (k : ℤ) : ceilLog2Eps ((2 : ℚ) ^ k) = k := by
  have ht : (2 : ℚ) ^ k * (2 : ℚ) ^ (1 - k) = 2 := by
    rw [← zpow_add₀ (by norm_num : (2 : ℚ) ≠ 0)]
    norm_num
  unfold ceilLog2Eps
  simp only [qclog2_two_zpow, ht]
  rw [if_pos (le_refl (2 : ℚ))]

/-- `encodebinarydot` inverts `decodebinarydot` for codes in the valid
range: encoding the exact uncertainty `2^(m-c)` yields code `c` with no
diagnostics, for `1 ≤ c ≤ MAX_LCI_UNCERTAINTY`. -/
theorem encodebinarydot_two_zpow (m : ℤ) (c : ℕ) (h1 : 1 ≤ c) (h2 : c ≤ 34) :
    encodebinarydot ((2 : ℚ) ^ (m - (c : ℤ))) m = (c, []) := by
  have hpos : (0 : ℚ) < (2 : ℚ) ^ (m - (c : ℤ)) := zpow_pos (by norm_num) _
  have hres : m - (m - (c : ℤ)) = (c : ℤ) := by omega
  unfold encodebinarydot
  simp only [ceilLog2Eps_two_zpow, hres, not_le.mpr hpos, if_false]
  rw [if_neg (by omega), if_neg (by
    unfold MAX_LCI_UNCERTAINTY
    push_cast
    omega)]
  simp

/-- `getbits` of a disjoint region is unchanged by `putbits`. -/
theorem getbits_putbits_disjoint (buf : Buf) (s n t m : ℕ) (val : ℤ)
    (h : s + n ≤ t ∨ t + m ≤ s) :
    getbits (putbits buf t m val) s n = getbits buf s n :=
  getbits_putbitsAux_disjoint buf s n t m _ h

/-- `getbits` over a freshly `putbits`-written region. -/
theorem getbits_putbits_self (buf : Buf) (s n : ℕ) (val : ℤ)
    (h : s + n ≤ 8 * buf.length) :
    getbits (putbits buf s n val) s n = int64bits val % 2 ^ n :=
  getbits_putbitsAux buf s n _ h

/-- The two's complement image of a small natural number is itself. -/
theorem int64bits_natCast_mod (c : ℕ) (n : ℕ) (hn : n ≤ 64) (h : c < 2 ^ n) :
    int64bits ((c : ℤ)) % 2 ^ n = c := by
  rw [int64bits_mod _ _ hn]
  have h1 : ((c : ℤ)).emod (2 ^ n) = (c : ℤ) :=
    Int.emod_eq_of_lt (by positivity) (by exact_mod_cast h)
  rw [h1, Int.toNat_natCast]

/-- The chunk emitted by `encodeLCIfield`, when the three uncertainties
are exact powers of two with in-range codes: ID 0, length 16, and a
16-octet payload whose bit fields recover the encoded values. -/
theorem encodeLCIfield_fields (cfg : LocationConfiguration) (c1 c2 c3 : ℕ)
    (hc1 : 1 ≤ c1) (hc1' : c1 ≤ 34)
    (hu1 : cfg.latitude_uncertainty = (2 : ℚ) ^ ((8 : ℤ) - (c1 : ℤ)))
    (hc2 : 1 ≤ c2) (hc2' : c2 ≤ 34)
    (hu2 : cfg.longitude_uncertainty = (2 : ℚ) ^ ((8 : ℤ) - (c2 : ℤ)))
    (hc3 : 1 ≤ c3) (hc3' : c3 ≤ 34)
    (hu3 : cfg.altitude_uncertainty = (2 : ℚ) ^ ((21 : ℤ) - (c3 : ℤ))) :
    ∃ payload : Buf,
      (encodeLCIfield cfg).1 = 0 :: 16 :: payload ∧
      (encodeLCIfield cfg).2 = [] ∧
      payload.length = 16 ∧
      getbits payload 0 6 = c1 ∧
      getbits payload 6 34 = int64bits (roundl (cfg.latitude * 2 ^ 25)) % 2 ^ 34 ∧
      getbits payload 40 6 = c2 ∧
      getbits payload 46 34 = int64bits (roundl (cfg.longitude * 2 ^ 25)) % 2 ^ 34 ∧
      getbits payload 84 6 = c3 ∧
      getbits payload 90 30 = int64bits (roundl (cfg.altitude * 2 ^ 8)) % 2 ^ 30 := by
  have e1 : (if 0 < cfg.latitude_uncertainty then encodebinarydot cfg.latitude_uncertainty 8
      else if !cfg.smallestflag then (0, []) else (MAX_LCI_UNCERTAINTY, [])) = (c1, []) := by
    rw [hu1, if_pos (zpow_pos (by norm_num) _)]
    exact encodebinarydot_two_zpow 8 c1 hc1 hc1'
  have e2 : (if 0 < cfg.longitude_uncertainty then encodebinarydot cfg.longitude_uncertainty 8
      else if !cfg.smallestflag then (0, []) else (MAX_LCI_UNCERTAINTY, [])) = (c2, []) := by
    rw [hu2, if_pos (zpow_pos (by norm_num) _)]
    exact encodebinarydot_two_zpow 8 c2 hc2 hc2'
  have e3 : (if 0 < cfg.altitude_uncertainty then encodebinarydot cfg.altitude_uncertainty 21
      else if !cfg.smallestflag then (0, []) else (MAX_LCI_UNCERTAINTY, [])) = (c3, []) := by
    rw [hu3, if_pos (zpow_pos (by norm_num) _)]
    exact encodebinarydot_two_zpow 21 c3 hc3 hc3'
  refine ⟨putbits (putbits (putbits (putbits (putbits (putbits (putbits (putbits (putbits (putbits (putbits (putbits (List.replicate 16 0) 0 6 ((c1 : ℤ))) 6 34 (roundl (cfg.latitude * 2 ^ 25))) 40 6 ((c2 : ℤ))) 46 34 (roundl (cfg.longitude * 2 ^ 25))) 80 4 (cfg.Altitude_Type)) 84 6 ((c3 : ℤ))) 90 30 (roundl (cfg.altitude * 2 ^ 8))) 120 3 (cfg.datum)) 123 1 (cfg.RegLoc_Agreement)) 124 1 (cfg.RegLoc_DSE)) 125 1 (cfg.Dependent_STA)) 126 2 (cfg.LCI_version), ?_, ?_, ?_, ?_, ?_, ?_, ?_, ?_, ?_⟩
  · simp only [encodeLCIfield, e1, e2, e3]
  · simp only [encodeLCIfield, e1, e2, e3]
    simp
  · simp only [length_putbits, List.length_replicate]
  ·
    rw [getbits_putbits_disjoint _ _ _ _ _ _ (by omega)]
    rw [getbits_putbits_disjoint _ _ _ _ _ _ (by omega)]
    rw [getbits_putbits_disjoint _ _ _ _ _ _ (by omega)]
    rw [getbits_putbits_disjoint _ _ _ _ _ _ (by omega)]
    rw [getbits_putbits_disjoint _ _ _ _ _ _ (by omega)]
    rw [getbits_putbits_disjoint _ _ _ _ _ _ (by omega)]
    rw [getbits_putbits_disjoint _ _ _ _ _ _ (by omega)]
    rw [getbits_putbits_disjoint _ _ _ _ _ _ (by omega)]
    rw [getbits_putbits_disjoint _ _ _ _ _ _ (by omega)]
    rw [getbits_putbits_disjoint _ _ _ _ _ _ (by omega)]
    rw [getbits_putbits_disjoint _ _ _ _ _ _ (by omega)]
    rw [getbits_putbits_self _ _ _ _ (by simp only [length_putbits, List.length_replicate]; omega)]
    exact int64bits_natCast_mod c1 6 (by omega) (by omega)
  ·
    rw [getbits_putbits_disjoint _ _ _ _ _ _ (by omega)]
    rw [getbits_putbits_disjoint _ _ _ _ _ _ (by omega)]
    rw [getbits_putbits_disjoint _ _ _ _ _ _ (by omega)]
    rw [getbits_putbits_disjoint _ _ _ _ _ _ (by omega)]
    rw [getbits_putbits_disjoint _ _ _ _ _ _ (by omega)]
    rw [getbits_putbits_disjoint _ _ _ _ _ _ (by omega)]
    rw [getbits_putbits_disjoint _ _ _ _ _ _ (by omega)]
    rw [getbits_putbits_disjoint _ _ _ _ _ _ (by omega)]
    rw [getbits_putbits_disjoint _ _ _ _ _ _ (by omega)]
    rw [getbits_putbits_disjoint _ _ _ _ _ _ (by omega)]
    rw [getbits_putbits_self _ _ _ _ (by simp only [length_putbits, List.length_replicate]; omega)]
  ·
    rw [getbits_putbits_disjoint _ _ _ _ _ _ (by omega)]
    rw [getbits_putbits_disjoint _ _ _ _ _ _ (by omega)]
    rw [getbits_putbits_disjoint _ _ _ _ _ _ (by omega)]
    rw [getbits_putbits_disjoint _ _ _ _ _ _ (by omega)]
    rw [getbits_putbits_disjoint _ _ _ _ _ _ (by omega)]
    rw [getbits_putbits_disjoint _ _ _ _ _ _ (by omega)]
    rw [getbits_putbits_disjoint _ _ _ _ _ _ (by omega)]
    rw [getbits_putbits_disjoint _ _ _ _ _ _ (by omega)]
    rw [getbits_putbits_disjoint _ _ _ _ _ _ (by omega)]
    rw [getbits_putbits_self _ _ _ _ (by simp only [length_putbits, List.length_replicate]; omega)]
    exact int64bits_natCast_mod c2 6 (by omega) (by omega)
  ·
    rw [getbits_putbits_disjoint _ _ _ _ _ _ (by omega)]
    rw [getbits_putbits_disjoint _ _ _ _ _ _ (by omega)]
    rw [getbits_putbits_disjoint _ _ _ _ _ _ (by omega)]
    rw [getbits_putbits_disjoint _ _ _ _ _ _ (by omega)]
    rw [getbits_putbits_disjoint _ _ _ _ _ _ (by omega)]
    rw [getbits_putbits_disjoint _ _ _ _ _ _ (by omega)]
    rw [getbits_putbits_disjoint _ _ _ _ _ _ (by omega)]
    rw [getbits_putbits_disjoint _ _ _ _ _ _ (by omega)]
    rw [getbits_putbits_self _ _ _ _ (by simp only [length_putbits, List.length_replicate]; omega)]
  ·
    rw [getbits_putbits_disjoint _ _ _ _ _ _ (by omega)]
    rw [getbits_putbits_disjoint _ _ _ _ _ _ (by omega)]
    rw [getbits_putbits_disjoint _ _ _ _ _ _ (by omega)]
    rw [getbits_putbits_disjoint _ _ _ _ _ _ (by omega)]
    rw [getbits_putbits_disjoint _ _ _ _ _ _ (by omega)]
    rw [getbits_putbits_disjoint _ _ _ _ _ _ (by omega)]
    rw [getbits_putbits_self _ _ _ _ (by simp only [length_putbits, List.length_replicate]; omega)]
    exact int64bits_natCast_mod c3 6 (by omega) (by omega)
  ·
    rw [getbits_putbits_disjoint _ _ _ _ _ _ (by omega)]
    rw [getbits_putbits_disjoint _ _ _ _ _ _ (by omega)]
    rw [getbits_putbits_disjoint _ _ _ _ _ _ (by omega)]
    rw [getbits_putbits_disjoint _ _ _ _ _ _ (by omega)]
    rw [getbits_putbits_disjoint _ _ _ _ _ _ (by omega)]
    rw [getbits_putbits_self _ _ _ _ (by simp only [length_putbits, List.length_replicate]; omega)]

/-- The chunk emitted by `encodeZfield` when the height uncertainty is an
exact power of two with in-range code. -/
theorem encodeZfield_fields (cfg : LocationConfiguration) (c4 : ℕ)
    (hc4 : 1 ≤ c4) (hc4' : c4 ≤ 24)
    (hu4 : cfg.sta_height_above_floor_uncertainty = (2 : ℚ) ^ ((11 : ℤ) - (c4 : ℤ))) :
    (encodeZfield cfg).1 = 4 :: 6 ::
      (numberBytes 2 (cfg.expected_to_move.emod 4 + ctrunc (cfg.sta_floor * 16) * 4) ++
       numberBytes 3 (ctrunc (cfg.sta_height_above_floor * 4096)) ++
       numberBytes 1 ((c4 : ℤ))) ∧
    (encodeZfield cfg).2 = [] := by
  have e4 : (if 0 < cfg.sta_height_above_floor_uncertainty then
      encodebinarydot cfg.sta_height_above_floor_uncertainty 11
      else if !cfg.smallestflag then (0, []) else (MAX_Z_UNCERTAINTY, [])) = (c4, []) := by
    rw [hu4, if_pos (zpow_pos (by norm_num) _)]
    exact encodebinarydot_two_zpow 11 c4 hc4 (by omega)
  have ec : (if MAX_Z_UNCERTAINTY < c4 then MAX_Z_UNCERTAINTY else c4) = c4 :=
    if_neg (by unfold MAX_Z_UNCERTAINTY; omega)
  constructor
  · simp only [encodeZfield, e4, ec]
  · simp only [encodeZfield, e4, ec]


/-- The chunk emitted by `encodeUsageField` always has the shape
ID 6, a length octet of 1 or 3, and that many payload octets. -/
theorem encodeUsageField_chunk (cfg : LocationConfiguration) :
    ∃ nl rest2, (encodeUsageField cfg).1 = 6 :: nl :: rest2 ∧
      rest2.length = nl ∧ (nl = 1 ∨ nl = 3) := by
  by_cases h1 : cfg.retention_expires_present = true
  · by_cases h2 : cfg.expiration = 0
    · simp [encodeUsageField, h1, h2]
      exact ⟨1, _, ⟨rfl, rfl⟩, rfl, Or.inl rfl⟩
    · simp [encodeUsageField, h1, h2]
      exact ⟨3, _, ⟨rfl, rfl⟩, by simp [numberBytes], Or.inr rfl⟩
  · by_cases h2 : cfg.expiration = 0
    · simp [encodeUsageField, h1, h2]
      exact ⟨1, _, ⟨rfl, rfl⟩, rfl, Or.inl rfl⟩
    · simp [encodeUsageField, h1, h2]
      exact ⟨3, _, ⟨rfl, rfl⟩, by simp [numberBytes], Or.inr rfl⟩

theorem encodeColocatedBSSID_chunk (cfg : LocationConfiguration)
    (hne : cfg.BSSIDS.length ≠ 0) (hwf : ∀ m ∈ cfg.BSSIDS, m.length = 6) :
    (encodeColocatedBSSID cfg).1 =
      7 :: (cfg.BSSIDS.length * 6 + 1) :: cfg.BSSIDS.length :: cfg.BSSIDS.flatten ∧
    cfg.BSSIDS.flatten.length = 6 * cfg.BSSIDS.length ∧
    (encodeColocatedBSSID cfg).2 = [] := by
  have hmap : cfg.BSSIDS.map placeBSSID = cfg.BSSIDS.map (fun m => (m, ([] : List Diag))) := by
    apply List.map_congr_left
    intro m hm
    simp [placeBSSID, hwf m hm]
  have hlen : cfg.BSSIDS.map List.length = List.replicate cfg.BSSIDS.length 6 := by
    have h6 : ∀ b ∈ cfg.BSSIDS.map List.length, b = 6 := by
      intro b hb
      rcases List.mem_map.mp hb with ⟨m, hm, rfl⟩
      exact hwf m hm
    simpa using List.eq_replicate_of_mem h6
  have hflat : cfg.BSSIDS.flatten.length = 6 * cfg.BSSIDS.length := by
    rw [List.length_flatten, hlen]
    simp [List.sum_replicate, smul_eq_mul]
    ring
  have hfst : (Prod.fst ∘ fun m : List ℕ => (m, ([] : List Diag))) = id := rfl
  have hsnd : (Prod.snd ∘ fun m : List ℕ => (m, ([] : List Diag))) = fun _ => ([] : List Diag) :=
    rfl
  refine ⟨?_, hflat, ?_⟩
  · simp only [encodeColocatedBSSID, if_neg hne, hmap, List.map_map, hfst, List.map_id]
  · simp only [encodeColocatedBSSID, if_neg hne, hmap, List.map_map, hsnd]
    simp

/-- Unconditional field formulas of `decodeLCIfield`. -/
theorem decodeLCIfield_spec (cfg : LocationConfiguration) (buf : Buf) (indx : ℕ) :
    (decodeLCIfield cfg buf indx).1.latitude =
      ((propagate_sign (getbits buf (indx + 6) 34) 34 : ℤ) : ℚ) / 2 ^ 25 ∧
    (decodeLCIfield cfg buf indx).1.longitude =
      ((propagate_sign (getbits buf (indx + 46) 34) 34 : ℤ) : ℚ) / 2 ^ 25 ∧
    (decodeLCIfield cfg buf indx).1.altitude = ((getbits buf (indx + 90) 30 : ℕ) : ℚ) / 256 ∧
    (decodeLCIfield cfg buf indx).2.1 = indx + 128 ∧
    (decodeLCIfield cfg buf indx).1.sta_floor = cfg.sta_floor ∧
    (decodeLCIfield cfg buf indx).1.sta_height_above_floor = cfg.sta_height_above_floor ∧
    (decodeLCIfield cfg buf indx).1.sta_height_above_floor_uncertainty =
      cfg.sta_height_above_floor_uncertainty ∧
    (decodeLCIfield cfg buf indx).1.BSSIDS = cfg.BSSIDS := by
  refine ⟨?_, ?_, ?_, ?_, ?_, ?_, ?_, ?_⟩ <;> simp [decodeLCIfield]

/-- The three uncertainty fields of `decodeLCIfield` for in-range codes. -/
theorem decodeLCIfield_unc_inrange (cfg : LocationConfiguration) (buf : Buf) (indx : ℕ)
    (h1 : getbits buf indx 6 ≤ 34) (h2 : getbits buf (indx + 40) 6 ≤ 34)
    (h3 : getbits buf (indx + 84) 6 ≤ 34) :
    (decodeLCIfield cfg buf indx).1.latitude_uncertainty =
      (if getbits buf indx 6 = 0 then 0 else decodebinarydot (getbits buf indx 6) 8) ∧
    (decodeLCIfield cfg buf indx).1.longitude_uncertainty =
      (if getbits buf (indx + 40) 6 = 0 then 0
       else decodebinarydot (getbits buf (indx + 40) 6) 8) ∧
    (decodeLCIfield cfg buf indx).1.altitude_uncertainty =
      (if getbits buf (indx + 84) 6 = 0 then 0
       else decodebinarydot (getbits buf (indx + 84) 6) 21) := by
  have e1 : ¬ (MAX_LCI_UNCERTAINTY < getbits buf indx 6) := by unfold MAX_LCI_UNCERTAINTY; omega
  have e2 : ¬ (MAX_LCI_UNCERTAINTY < getbits buf (indx + 40) 6) := by
    unfold MAX_LCI_UNCERTAINTY; omega
  have e3 : ¬ (MAX_LCI_UNCERTAINTY < getbits buf (indx + 84) 6) := by
    unfold MAX_LCI_UNCERTAINTY; omega
  refine ⟨?_, ?_, ?_⟩ <;> simp [decodeLCIfield, e1, e2, e3]

/-- Field formulas of `decodeZcase` for the canonical length 6. -/
theorem decodeZcase_spec (cfg : LocationConfiguration) (buf : Buf) (nbyt : ℕ) :
    (decodeZcase cfg buf nbyt 6).1.sta_floor = ((getnumber buf nbyt 2 / 4 : ℕ) : ℚ) / 16 ∧
    (decodeZcase cfg buf nbyt 6).1.sta_height_above_floor =
      ((getnumber buf (nbyt + 2) 3 : ℕ) : ℚ) / 4096 ∧
    (decodeZcase cfg buf nbyt 6).1.sta_height_above_floor_uncertainty =
      (if 0 < getoctet buf (nbyt + 5) then decodebinarydot (getoctet buf (nbyt + 5)) 11
       else 0) ∧
    (decodeZcase cfg buf nbyt 6).2.2.2 = nbyt + 6 ∧
    (decodeZcase cfg buf nbyt 6).1.latitude = cfg.latitude ∧
    (decodeZcase cfg buf nbyt 6).1.longitude = cfg.longitude ∧
    (decodeZcase cfg buf nbyt 6).1.altitude = cfg.altitude ∧
    (decodeZcase cfg buf nbyt 6).1.latitude_uncertainty = cfg.latitude_uncertainty ∧
    (decodeZcase cfg buf nbyt 6).1.longitude_uncertainty = cfg.longitude_uncertainty ∧
    (decodeZcase cfg buf nbyt 6).1.altitude_uncertainty = cfg.altitude_uncertainty ∧
    (decodeZcase cfg buf nbyt 6).1.BSSIDS = cfg.BSSIDS := by
  refine ⟨?_, ?_, ?_, ?_, ?_, ?_, ?_, ?_, ?_, ?_, ?_⟩ <;> simp [decodeZcase]

/-- `decodeUsageCase` only touches the usage fields. -/
theorem decodeUsageCase_preserves (cfg : LocationConfiguration) (buf : Buf) (nbyt nlen : ℕ) :
    (decodeUsageCase cfg buf nbyt nlen).1.latitude = cfg.latitude ∧
    (decodeUsageCase cfg buf nbyt nlen).1.longitude = cfg.longitude ∧
    (decodeUsageCase cfg buf nbyt nlen).1.altitude = cfg.altitude ∧
    (decodeUsageCase cfg buf nbyt nlen).1.latitude_uncertainty = cfg.latitude_uncertainty ∧
    (decodeUsageCase cfg buf nbyt nlen).1.longitude_uncertainty = cfg.longitude_uncertainty ∧
    (decodeUsageCase cfg buf nbyt nlen).1.altitude_uncertainty = cfg.altitude_uncertainty ∧
    (decodeUsageCase cfg buf nbyt nlen).1.sta_floor = cfg.sta_floor ∧
    (decodeUsageCase cfg buf nbyt nlen).1.sta_height_above_floor =
      cfg.sta_height_above_floor ∧
    (decodeUsageCase cfg buf nbyt nlen).1.sta_height_above_floor_uncertainty =
      cfg.sta_height_above_floor_uncertainty ∧
    (decodeUsageCase cfg buf nbyt nlen).1.BSSIDS = cfg.BSSIDS := by
  refine ⟨?_, ?_, ?_, ?_, ?_, ?_, ?_, ?_, ?_, ?_⟩ <;> simp [decodeUsageCase]

/-- A chunk is never empty. -/
theorem isChunk_ne_nil {c : List ℕ} {id : ℕ} (h : IsChunk c id) : c ≠ [] := by
  obtain ⟨len, payload, rfl, -⟩ := h
  simp

/-- A chunk has at least its two header octets. -/
theorem isChunk_length {c : List ℕ} {id : ℕ} (h : IsChunk c id) : 2 ≤ c.length := by
  obtain ⟨len, payload, rfl, -⟩ := h
  simp

/-- Reading an octet of the middle list of a three-way append. -/
theorem getoctet_middle (pre c rest : Buf) (k : ℕ) (hk : k < c.length) :
    getoctet (pre ++ c ++ rest) (pre.length + k) = getoctet c k := by
  rw [List.append_assoc, getoctet_append_right _ _ _ (by omega)]
  have h1 : pre.length + k - pre.length = k := by omega
  rw [h1, getoctet_append_left _ _ _ hk]

/-- Reading a bit field of the middle list of a three-way append. -/
theorem getbits_middle (pre c rest : Buf) (s n : ℕ) (h : s + n ≤ 8 * c.length) :
    getbits (pre ++ c ++ rest) (8 * pre.length + s) n = getbits c s n := by
  rw [List.append_assoc, getbits_append_right _ _ _ _ (by omega)]
  have h1 : 8 * pre.length + s - 8 * pre.length = s := by omega
  rw [h1, getbits_append_left _ _ _ _ h]

/-- Reading a big-endian number out of the middle list of a three-way
append. -/
theorem getnumber_middle (pre c rest : Buf) (p n : ℕ) (h : p + n ≤ c.length) :
    getnumber (pre ++ c ++ rest) (pre.length + p) n = getnumber c p n := by
  rw [List.append_assoc, getnumber_append_right _ _ _ _ (by omega)]
  have h1 : pre.length + p - pre.length = p := by omega
  rw [h1]
  exact getnumber_congr _ _ _ _ _ (fun k hk => getoctet_append_left _ _ _ (by omega))

/-- One step of the ID walker over a well-formed chunk. -/
theorem subIDsAux_chunk_step (pre c rest : Buf) (id fuel : ℕ) (h : IsChunk c id) :
    subIDsAux (pre ++ c ++ rest) pre.length (fuel + 1) =
      id :: subIDsAux (pre ++ c ++ rest) (pre.length + c.length) fuel := by
  obtain ⟨len, payload, rfl, hlen⟩ := h
  rw [subIDsAux, if_pos (by simp only [List.length_append, List.length_cons]; omega)]
  have h0 : getoctet (pre ++ (id :: len :: payload) ++ rest) (pre.length + 0) = id :=
    getoctet_middle _ _ _ 0 (by simp)
  have h1 : getoctet (pre ++ (id :: len :: payload) ++ rest) (pre.length + 1) = len :=
    getoctet_middle _ _ _ 1 (by simp)
  rw [Nat.add_zero] at h0
  rw [h0, h1]
  have h2 : pre.length + 2 + len = pre.length + (id :: len :: payload).length := by
    simp; omega
  rw [h2]

/-- The ID walker stops at (or past) the end of the buffer. -/
theorem subIDsAux_end (buf : Buf) (nbyt fuel : ℕ) (h : buf.length ≤ nbyt + 1) :
    subIDsAux buf nbyt fuel = [] := by
  cases fuel with
  | zero => rfl
  | succ f => rw [subIDsAux, if_neg (by omega)]

/-- The ID walker over a concatenation of well-formed chunks lists their
IDs in order. -/
theorem subIDsAux_chunks (cs : List (List ℕ)) (ids : List ℕ)
    (hall : List.Forall₂ IsChunk cs ids) :
    ∀ (pre : Buf) (fuel : ℕ), cs.length ≤ fuel →
      subIDsAux (pre ++ cs.flatten) pre.length fuel = ids := by
  induction hall with
  | nil =>
    intro pre fuel hfuel
    exact subIDsAux_end _ _ _ (by simp)
  | cons hc hcs ih =>
    rename_i c id cs' ids'
    intro pre fuel hfuel
    obtain ⟨f, rfl⟩ : ∃ f, fuel = f + 1 := ⟨fuel - 1, by simp at hfuel; omega⟩
    have hb : pre ++ (c :: cs').flatten = pre ++ c ++ cs'.flatten := by
      simp [List.flatten]
    rw [hb, subIDsAux_chunk_step _ _ _ _ _ hc]
    have h2 : pre.length + c.length = (pre ++ c).length := by simp
    rw [h2, ih (pre ++ c) f (by simp at hfuel ⊢; omega)]

/-- Every ID the walker lists over the all-zero body is zero. -/
theorem subIDsAux_zero_body (k : ℕ) :
    ∀ (fuel nbyt : ℕ), 3 ≤ nbyt →
      ∀ x ∈ subIDsAux ([1, 0, 8] ++ List.replicate k 0) nbyt fuel, x = 0 := by
  intro fuel
  induction fuel with
  | zero => intro nbyt h3 x hx; simp [subIDsAux] at hx
  | succ f ih =>
    intro nbyt h3 x hx
    rw [subIDsAux] at hx
    by_cases hc : nbyt + 1 < ([1, 0, 8] ++ List.replicate k 0 : Buf).length
    · rw [if_pos hc] at hx
      have hg : ∀ m, 3 ≤ m → getoctet ([1, 0, 8] ++ List.replicate k 0) m = 0 := by
        intro m hm
        rw [getoctet_append_right _ _ _ (by simp; omega), getoctet_replicate]
        split <;> rfl
      rcases List.mem_cons.mp hx with rfl | hx'
      · exact hg _ h3
      · exact ih _ (by omega) x hx'
    · rw [if_neg hc] at hx
      simp at hx

/-! ### One-step unfoldings of the decoder loop -/

/-- The loop exits immediately at or past the end of the string. -/
theorem decodeLoop_end (buf : Buf) (slen : ℕ) (cfg : LocationConfiguration)
    (nbyt fuel : ℕ) (h : slen ≤ nbyt) :
    decodeLoop buf slen cfg nbyt fuel = (cfg, [], []) := by
  cases fuel with
  | zero => rfl
  | succ f => rw [decodeLoop, if_neg (by omega)]

/-- The loop step over an LCI subelement header. -/
theorem decodeLoop_LCI_step (buf : Buf) (slen : ℕ) (cfg : LocationConfiguration)
    (nbyt fuel : ℕ)
    (h0 : getoctet buf nbyt = 0) (h1 : getoctet buf (nbyt + 1) = 16)
    (hs : nbyt + 18 ≤ slen) :
    decodeLoop buf slen cfg nbyt (fuel + 1) =
      ((decodeLoop buf slen (decodeLCIfield cfg buf (8 * (nbyt + 2))).1 (nbyt + 18) fuel).1,
       (decodeLCIfield cfg buf (8 * (nbyt + 2))).2.2.1 ++
         (decodeLoop buf slen (decodeLCIfield cfg buf (8 * (nbyt + 2))).1 (nbyt + 18) fuel).2.1,
       [nbyt, nbyt + 1] ++ (decodeLCIfield cfg buf (8 * (nbyt + 2))).2.2.2 ++
         (decodeLoop buf slen (decodeLCIfield cfg buf (8 * (nbyt + 2))).1 (nbyt + 18) fuel).2.2) := by
  rw [decodeLoop]
  rw [if_pos (show nbyt < slen by omega)]
  simp only [h0, h1]
  rw [if_neg (show ¬ slen < nbyt + 2 + 16 by omega)]
  have hnx : (decodeLCIfield cfg buf (8 * (nbyt + 2))).2.1 / 8 = nbyt + 18 := by
    rw [(decodeLCIfield_spec cfg buf (8 * (nbyt + 2))).2.2.2.1]
    omega
  simp only [hnx]
  rw [if_neg (by norm_num), if_neg (by norm_num)]

/-- The loop step over a Z subelement header of the canonical length 6. -/
theorem decodeLoop_Z_step (buf : Buf) (slen : ℕ) (cfg : LocationConfiguration)
    (nbyt fuel : ℕ)
    (h0 : getoctet buf nbyt = 4) (h1 : getoctet buf (nbyt + 1) = 6)
    (hs : nbyt + 8 ≤ slen) :
    decodeLoop buf slen cfg nbyt (fuel + 1) =
      ((decodeLoop buf slen (decodeZcase cfg buf (nbyt + 2) 6).1 (nbyt + 8) fuel).1,
       (decodeZcase cfg buf (nbyt + 2) 6).2.1 ++
         (decodeLoop buf slen (decodeZcase cfg buf (nbyt + 2) 6).1 (nbyt + 8) fuel).2.1,
       [nbyt, nbyt + 1] ++ (decodeZcase cfg buf (nbyt + 2) 6).2.2.1 ++
         (decodeLoop buf slen (decodeZcase cfg buf (nbyt + 2) 6).1 (nbyt + 8) fuel).2.2) := by
  rw [decodeLoop]
  rw [if_pos (show nbyt < slen by omega)]
  simp only [h0, h1]
  rw [if_neg (show ¬ slen < nbyt + 2 + 6 by omega)]
  have hnx : (decodeZcase cfg buf (nbyt + 2) 6).2.2.2 = nbyt + 8 := by
    have := (decodeZcase_spec cfg buf (nbyt + 2)).2.2.2.1
    omega
  simp only [hnx]
  rw [if_pos (by norm_num), if_neg (by norm_num)]
  simp

/-- The next-octet index of `decodeUsageCase` for its two accepted
lengths. -/
theorem decodeUsageCase_next (cfg : LocationConfiguration) (buf : Buf) (nbyt : ℕ) :
    (decodeUsageCase cfg buf nbyt 1).2.2.2 = nbyt + 1 ∧
    (decodeUsageCase cfg buf nbyt 3).2.2.2 = nbyt + 3 := by
  constructor <;> simp [decodeUsageCase]

/-- The loop step over a Usage subelement header of length 1 or 3. -/
theorem decodeLoop_Usage_step (buf : Buf) (slen : ℕ) (cfg : LocationConfiguration)
    (nbyt fuel nlen : ℕ) (hn : nlen = 1 ∨ nlen = 3)
    (h0 : getoctet buf nbyt = 6) (h1 : getoctet buf (nbyt + 1) = nlen)
    (hs : nbyt + 2 + nlen ≤ slen) :
    decodeLoop buf slen cfg nbyt (fuel + 1) =
      ((decodeLoop buf slen (decodeUsageCase cfg buf (nbyt + 2) nlen).1 (nbyt + 2 + nlen) fuel).1,
       (decodeUsageCase cfg buf (nbyt + 2) nlen).2.1 ++
         (decodeLoop buf slen (decodeUsageCase cfg buf (nbyt + 2) nlen).1
           (nbyt + 2 + nlen) fuel).2.1,
       [nbyt, nbyt + 1] ++ (decodeUsageCase cfg buf (nbyt + 2) nlen).2.2.1 ++
         (decodeLoop buf slen (decodeUsageCase cfg buf (nbyt + 2) nlen).1
           (nbyt + 2 + nlen) fuel).2.2) := by
  rw [decodeLoop]
  rw [if_pos (show nbyt < slen by omega)]
  simp only [h0, h1]
  rw [if_neg (show ¬ slen < nbyt + 2 + nlen by omega)]
  have hnx : (decodeUsageCase cfg buf (nbyt + 2) nlen).2.2.2 = nbyt + 2 + nlen := by
    rcases hn with rfl | rfl
    · rw [(decodeUsageCase_next cfg buf (nbyt + 2)).1]
    · rw [(decodeUsageCase_next cfg buf (nbyt + 2)).2]
  simp only [hnx]
  rw [if_pos hn]

/-- The loop step over a colocated-BSSID header of well-formed length
`6N + 1`. -/
theorem decodeLoop_BSSID_step (buf : Buf) (slen : ℕ) (cfg : LocationConfiguration)
    (nbyt fuel N : ℕ)
    (h0 : getoctet buf nbyt = 7) (h1 : getoctet buf (nbyt + 1) = 6 * N + 1)
    (hs : nbyt + 3 + 6 * N ≤ slen) :
    decodeLoop buf slen cfg nbyt (fuel + 1) =
      ((decodeLoop buf slen
          { cfg with BSSIDS := (decodeColocatedBSSID buf (nbyt + 2) (6 * N + 1)).1 }
          (nbyt + 3 + 6 * N) fuel).1,
       (decodeColocatedBSSID buf (nbyt + 2) (6 * N + 1)).2.2.1 ++
         (decodeLoop buf slen
           { cfg with BSSIDS := (decodeColocatedBSSID buf (nbyt + 2) (6 * N + 1)).1 }
           (nbyt + 3 + 6 * N) fuel).2.1,
       [nbyt, nbyt + 1] ++ (decodeColocatedBSSID buf (nbyt + 2) (6 * N + 1)).2.2.2 ++
         (decodeLoop buf slen
           { cfg with BSSIDS := (decodeColocatedBSSID buf (nbyt + 2) (6 * N + 1)).1 }
           (nbyt + 3 + 6 * N) fuel).2.2) := by
  rw [decodeLoop]
  rw [if_pos (show nbyt < slen by omega)]
  simp only [h0, h1]
  rw [if_neg (show ¬ slen < nbyt + 2 + (6 * N + 1) by omega)]
  have hnx : (decodeColocatedBSSID buf (nbyt + 2) (6 * N + 1)).2.1 = nbyt + 3 + 6 * N := by
    simp only [decodeColocatedBSSID]
    omega
  simp only [hnx]
  have hmod : ¬ (((6 * N + 1 : ℕ) : ℤ) - 1).emod 6 ≠ 0 := by
    simp only [ne_eq, Decidable.not_not]
    have : ((6 * N + 1 : ℕ) : ℤ) - 1 = 6 * (N : ℤ) := by push_cast; ring
    rw [this]
    exact Int.mul_emod_right 6 (N : ℤ)
  rw [if_neg hmod]
  simp

/-- The loop step on a malformed header: report and stop. -/
theorem decodeLoop_malformed (buf : Buf) (slen : ℕ) (cfg : LocationConfiguration)
    (nbyt fuel : ℕ) (h : nbyt < slen)
    (hlen : slen < nbyt + 2 + getoctet buf (nbyt + 1)) :
    decodeLoop buf slen cfg nbyt (fuel + 1) =
      (cfg, [Diag.MalformedInput (getoctet buf nbyt) (getoctet buf (nbyt + 1)) (nbyt + 2)],
       [nbyt, nbyt + 1]) := by
  rw [decodeLoop, if_pos h, if_pos hlen]

/-- Out-of-range LCI uncertainty codes are clamped to 34 with a
diagnostic. -/
theorem decodeLCIfield_clamp (cfg : LocationConfiguration) (buf : Buf) (indx : ℕ)
    (h1 : 34 < getbits buf indx 6) (h2 : 34 < getbits buf (indx + 40) 6)
    (h3 : 34 < getbits buf (indx + 84) 6) :
    (decodeLCIfield cfg buf indx).1.latitude_uncertainty = decodebinarydot 34 8 ∧
    Diag.RangeViolation .latU (getbits buf indx 6) ∈ (decodeLCIfield cfg buf indx).2.2.1 ∧
    (decodeLCIfield cfg buf indx).1.longitude_uncertainty = decodebinarydot 34 8 ∧
    Diag.RangeViolation .lonU (getbits buf (indx + 40) 6) ∈ (decodeLCIfield cfg buf indx).2.2.1 ∧
    (decodeLCIfield cfg buf indx).1.altitude_uncertainty = decodebinarydot 34 21 ∧
    Diag.RangeViolation .altU (getbits buf (indx + 84) 6) ∈ (decodeLCIfield cfg buf indx).2.2.1 := by
  refine ⟨?_, ?_, ?_, ?_, ?_, ?_⟩ <;>
    simp [decodeLCIfield, MAX_LCI_UNCERTAINTY, h1, h2, h3]

/-- A Z height uncertainty code above the maximum is reported but used
unclamped. -/
theorem decodeZcase_unclamped (cfg : LocationConfiguration) (buf : Buf) (nbyt : ℕ)
    (h : 24 < getoctet buf (nbyt + 5)) :
    (decodeZcase cfg buf nbyt 6).1.sta_height_above_floor_uncertainty =
      decodebinarydot (getoctet buf (nbyt + 5)) 11 ∧
    Diag.RangeViolation .zU (getoctet buf (nbyt + 5)) ∈ (decodeZcase cfg buf nbyt 6).2.1 := by
  have e0 : 0 < getoctet buf (nbyt + 5) := by omega
  constructor <;> simp [decodeZcase, MAX_Z_UNCERTAINTY, h, e0]

/-- Projections of `decodeLCIstring` to the subelement loop. -/
theorem decodeLCIstring_cfg (cfg : LocationConfiguration) (buf : Buf) :
    (decodeLCIstring cfg buf).1 = (decodeLoop buf buf.length cfg 3 buf.length).1 := by
  simp [decodeLCIstring]

theorem decodeLCIstring_reads (cfg : LocationConfiguration) (buf : Buf) :
    (decodeLCIstring cfg buf).2.2 =
      [0, 1, 2] ++ (decodeLoop buf buf.length cfg 3 buf.length).2.2 := by
  simp [decodeLCIstring]

/-- C8: on Usage encode, a retention flag that disagrees with the
expiration value is reconciled to match it (cleared with length 1 when
the expiration is 0, set with length 3 when it is nonzero), with a
SemanticInconsistency diagnostic; the emitted chunk is always a
well-formed Usage subelement, so the call never fails. -/
theorem C8_usage_reconciliation (cfg : LocationConfiguration) :
    (cfg.retention_expires_present = true → cfg.expiration = 0 →
      (encodeUsageField cfg).2.1.retention_expires_present = false ∧
      getoctet (encodeUsageField cfg).1 1 = 1 ∧
      Diag.SemanticInconsistency .encRetSetExpZero ∈ (encodeUsageField cfg).2.2) ∧
    (cfg.retention_expires_present = false → cfg.expiration ≠ 0 →
      (encodeUsageField cfg).2.1.retention_expires_present = true ∧
      getoctet (encodeUsageField cfg).1 1 = 3 ∧
      Diag.SemanticInconsistency .encRetClearExpNonzero ∈ (encodeUsageField cfg).2.2) ∧
    IsChunk (encodeUsageField cfg).1 6 := by
  refine ⟨?_, ?_, ?_⟩
  · intro h1 h2
    refine ⟨?_, ?_, ?_⟩ <;> simp [encodeUsageField, h1, h2, getoctet]
  · intro h1 h2
    refine ⟨?_, ?_, ?_⟩ <;> simp [encodeUsageField, h1, h2, getoctet]
  · obtain ⟨nl, rest2, he, hlen, hnl⟩ := encodeUsageField_chunk cfg
    exact ⟨nl, rest2, he, hlen⟩

/-- Witness for C8 at a configuration whose retention flag is set while
its expiration is zero. -/
theorem C8_usage_reconciliation_witness :
    (encodeUsageField { retention_expires_present := true }).2.1.retention_expires_present
      = false ∧
    getoctet (encodeUsageField { retention_expires_present := true }).1 1 = 1 ∧
    Diag.SemanticInconsistency .encRetSetExpZero ∈
      (encodeUsageField { retention_expires_present := true }).2.2 :=
  (C8_usage_reconciliation { retention_expires_present := true }).1 rfl rfl

/-- C9: the colocated-BSSID decoder derives the number of MACs from the
declared length alone and returns them in buffer order; a nonzero
MaxBSSIDIndicator octet is reported, and reported again when it differs
from the derived count. -/
theorem C9_bssid_decode (buf : Buf) (nbyt N : ℕ) :
    (decodeColocatedBSSID buf nbyt (6 * N + 1)).1 =
      (List.range N).map
        (fun k => (List.range 6).map (fun j => getoctet buf (nbyt + 1 + 6 * k + j))) ∧
    (decodeColocatedBSSID buf nbyt (6 * N + 1)).1.length = N ∧
    (getoctet buf nbyt ≠ 0 →
      Diag.BSSIDIndicatorNonzero (getoctet buf nbyt) ∈
        (decodeColocatedBSSID buf nbyt (6 * N + 1)).2.2.1) ∧
    (getoctet buf nbyt ≠ 0 → getoctet buf nbyt ≠ N →
      Diag.BSSIDIndicatorMismatch (getoctet buf nbyt) N ∈
        (decodeColocatedBSSID buf nbyt (6 * N + 1)).2.2.1) := by
  have hN : (6 * N + 1 - 1) / 6 = N := by omega
  refine ⟨?_, ?_, ?_, ?_⟩
  · simp [decodeColocatedBSSID, hN]
  · simp [decodeColocatedBSSID, hN]
  · intro h
    simp [decodeColocatedBSSID, hN, h]
  · intro h h'
    simp [decodeColocatedBSSID, hN, h, h']

/-- Witness for C9: two MACs behind a wrong, nonzero indicator octet. -/
theorem C9_bssid_decode_witness :
    Diag.BSSIDIndicatorNonzero 5 ∈
      (decodeColocatedBSSID [5, 1, 2, 3, 4, 5, 6, 7, 8, 9, 10, 11, 12] 0 (6 * 2 + 1)).2.2.1 ∧
    Diag.BSSIDIndicatorMismatch 5 2 ∈
      (decodeColocatedBSSID [5, 1, 2, 3, 4, 5, 6, 7, 8, 9, 10, 11, 12] 0 (6 * 2 + 1)).2.2.1 := by
  constructor
  · have := (C9_bssid_decode [5, 1, 2, 3, 4, 5, 6, 7, 8, 9, 10, 11, 12] 0 2).2.2.1 (by decide)
    simpa using this
  · have := (C9_bssid_decode [5, 1, 2, 3, 4, 5, 6, 7, 8, 9, 10, 11, 12] 0 2).2.2.2 (by decide)
      (by decide)
    simpa using this

/-- C10: whenever the colocated-BSSID subelement is emitted, its
MaxBSSIDIndicator octet carries the number of addresses `N` -- a nonzero
value, diverging from the 0 the standard mandates. -/
theorem C10_indicator_is_N (cfg : LocationConfiguration) (h : 0 < cfg.BSSIDS.length) :
    getoctet (encodeColocatedBSSID cfg).1 2 = cfg.BSSIDS.length ∧
    getoctet (encodeColocatedBSSID cfg).1 2 ≠ 0 := by
  have hne : cfg.BSSIDS.length ≠ 0 := by omega
  constructor
  · simp [encodeColocatedBSSID, hne, getoctet]
  · simp [encodeColocatedBSSID, hne, getoctet]

/-- Witness for C10 at a configuration with one colocated BSSID. -/
theorem C10_indicator_is_N_witness :
    getoctet (encodeColocatedBSSID cfgOrder).1 2 = cfgOrder.BSSIDS.length ∧
    getoctet (encodeColocatedBSSID cfgOrder).1 2 ≠ 0 :=
  C10_indicator_is_N cfgOrder (by decide)

/-- The LCI encoder always emits a well-formed chunk with ID 0. -/
theorem encodeLCIfield_isChunk (cfg : LocationConfiguration) :
    IsChunk (encodeLCIfield cfg).1 0 := by
  simp only [encodeLCIfield]
  exact ⟨16, _, rfl, by simp only [length_putbits, List.length_replicate]⟩

/-- The Z encoder always emits a well-formed chunk with ID 4. -/
theorem encodeZfield_isChunk (cfg : LocationConfiguration) :
    IsChunk (encodeZfield cfg).1 4 := by
  simp only [encodeZfield]
  exact ⟨6, _, rfl, by simp [length_numberBytes]⟩

/-- The Usage encoder always emits a well-formed chunk with ID 6. -/
theorem encodeUsageField_isChunk (cfg : LocationConfiguration) :
    IsChunk (encodeUsageField cfg).1 6 := by
  obtain ⟨nl, rest2, he, hlen, -⟩ := encodeUsageField_chunk cfg
  exact ⟨nl, rest2, he, hlen⟩

/-- The colocated-BSSID encoder emits a well-formed chunk with ID 7 when
the list is non-empty and every MAC has its 6 octets. -/
theorem encodeColocatedBSSID_isChunk (cfg : LocationConfiguration)
    (hne : cfg.BSSIDS.length ≠ 0) (hwf : ∀ m ∈ cfg.BSSIDS, m.length = 6) :
    IsChunk (encodeColocatedBSSID cfg).1 7 := by
  obtain ⟨he, hflat, -⟩ := encodeColocatedBSSID_chunk cfg hne hwf
  exact ⟨cfg.BSSIDS.length * 6 + 1, _, he, by simp [hflat]; omega⟩

/-- C1: at a configuration with every include-flag set, a non-default
latitude and one colocated BSSID, the encoder emits the subelements in
the order 0, 4, 7, 6 -- the Usage subelement is written after the
colocated-BSSID one, so the output is *not* in ascending subelement-ID
order, contradicting the claim (and the comment in the C source). -/
theorem C1_subelement_order :
    subelementIDs (encodeLCIstring cfgOrder).1 = [0, 4, 7, 6] ∧
    ¬ List.Sorted (· < ·) (subelementIDs (encodeLCIstring cfgOrder).1) := by
  have hL : IsChunk (encodeLCIfield cfgOrder).1 0 := encodeLCIfield_isChunk _
  have hZ : IsChunk (encodeZfield cfgOrder).1 4 := encodeZfield_isChunk _
  have hB : IsChunk (encodeColocatedBSSID cfgOrder).1 7 :=
    encodeColocatedBSSID_isChunk _ (by decide) (by decide)
  have hU : IsChunk (encodeUsageField cfgOrder).1 6 := encodeUsageField_isChunk _
  have hneed : needLCIflag cfgOrder := Or.inl (by norm_num [cfgOrder])
  have hlci : cfgOrder.wantLCIflag = true := rfl
  have hz : cfgOrder.wantZflag = true := rfl
  have hco : cfgOrder.wantColocatedflag = true := rfl
  have hus : cfgOrder.wantUsageflag = true := rfl
  have hbody : (encodeLCIstring cfgOrder).1 =
      [1, 0, 8] ++ [(encodeLCIfield cfgOrder).1, (encodeZfield cfgOrder).1,
        (encodeColocatedBSSID cfgOrder).1, (encodeUsageField cfgOrder).1].flatten := by
    simp only [encodeLCIstring, hlci, hz, hco, hus, if_true]
    rw [if_pos (show True ∧ needBSSIDflag cfgOrder from ⟨trivial, by decide⟩)]
    rw [if_pos (show True ∧ (needLCIflag cfgOrder ∨ needZflag cfgOrder ∨
      needBSSIDflag cfgOrder) from ⟨trivial, Or.inl hneed⟩)]
    have hne : (encodeLCIfield cfgOrder).1 ++ (encodeZfield cfgOrder).1 ++
        (encodeColocatedBSSID cfgOrder).1 ++ (encodeUsageField cfgOrder).1 ≠ [] := by
      obtain ⟨l, p, he, -⟩ := hL
      simp [he]
    rw [if_neg hne]
    simp [List.flatten, List.append_assoc]
  have hforall : List.Forall₂ IsChunk
      [(encodeLCIfield cfgOrder).1, (encodeZfield cfgOrder).1,
        (encodeColocatedBSSID cfgOrder).1, (encodeUsageField cfgOrder).1] [0, 4, 7, 6] :=
    .cons hL (.cons hZ (.cons hB (.cons hU .nil)))
  have hids : subelementIDs (encodeLCIstring cfgOrder).1 = [0, 4, 7, 6] := by
    rw [hbody]
    unfold subelementIDs
    have h4 : ([0, 4, 7, 6] : List ℕ).length ≤
        (([1, 0, 8] : Buf) ++ [(encodeLCIfield cfgOrder).1, (encodeZfield cfgOrder).1,
          (encodeColocatedBSSID cfgOrder).1, (encodeUsageField cfgOrder).1].flatten).length := by
      have h2 := isChunk_length hL
      simp [List.flatten]
      omega
    have := subIDsAux_chunks _ _ hforall [1, 0, 8]
      ((([1, 0, 8] : Buf) ++ [(encodeLCIfield cfgOrder).1, (encodeZfield cfgOrder).1,
        (encodeColocatedBSSID cfgOrder).1, (encodeUsageField cfgOrder).1].flatten).length)
      (by simpa using h4)
    simpa using this
  refine ⟨hids, ?_⟩
  rw [hids]
  decide

/-- The encoder's output is the header followed by the flattened emitted
chunks (or the '0'-filled remainder when no subelement is emitted). -/
theorem encodeLCIstring_buf (cfg : LocationConfiguration) :
    (encodeLCIstring cfg).1 = [1, 0, 8] ++
      (if (emittedChunks cfg).flatten = []
       then List.replicate (34 + 6 * cfg.BSSIDS.length) 0
       else (emittedChunks cfg).flatten) := by
  simp only [encodeLCIstring, emittedChunks, List.flatten_append, apply_ite List.flatten,
    apply_ite Prod.fst, List.flatten_cons, List.flatten_nil, List.append_nil]

/-- The emitted chunks are well-formed, with the IDs of `emittedIDs`. -/
theorem emittedChunks_forall₂ (cfg : LocationConfiguration)
    (hwf : ∀ m ∈ cfg.BSSIDS, m.length = 6) :
    List.Forall₂ IsChunk (emittedChunks cfg) (emittedIDs cfg) := by
  unfold emittedChunks emittedIDs
  refine List.rel_append (List.rel_append (List.rel_append ?_ ?_) ?_) ?_
  · by_cases hp : cfg.wantLCIflag = true
    · simp only [if_pos hp]; exact .cons (encodeLCIfield_isChunk cfg) .nil
    · simp only [if_neg hp]; exact .nil
  · by_cases hp : cfg.wantZflag = true
    · simp only [if_pos hp]; exact .cons (encodeZfield_isChunk cfg) .nil
    · simp only [if_neg hp]; exact .nil
  · by_cases hp : cfg.wantColocatedflag = true ∧ needBSSIDflag cfg
    · simp only [if_pos hp]
      refine .cons (encodeColocatedBSSID_isChunk cfg ?_ hwf) .nil
      have := hp.2
      unfold needBSSIDflag at this
      omega
    · simp only [if_neg hp]; exact .nil
  · by_cases hp : cfg.wantUsageflag = true ∧
        (needLCIflag cfg ∨ needZflag cfg ∨ needBSSIDflag cfg)
    · simp only [if_pos hp]; exact .cons (encodeUsageField_isChunk cfg) .nil
    · simp only [if_neg hp]; exact .nil

/-- C6 (amended): the encoder emits the Usage subelement iff its
include-flag is set and some LCI/Z/BSSID *value* is non-default -- the
"need" flags are computed from field values whether or not the
corresponding subelements are emitted. -/
theorem C6_usage_emission (cfg : LocationConfiguration)
    (hwf : ∀ m ∈ cfg.BSSIDS, m.length = 6) :
    6 ∈ subelementIDs (encodeLCIstring cfg).1 ↔
      cfg.wantUsageflag = true ∧
        (needLCIflag cfg ∨ needZflag cfg ∨ needBSSIDflag cfg) := by
  have hids6 : (6 ∈ emittedIDs cfg) ↔ (cfg.wantUsageflag = true ∧
      (needLCIflag cfg ∨ needZflag cfg ∨ needBSSIDflag cfg)) := by
    unfold emittedIDs
    constructor
    · intro hm
      rcases List.mem_append.mp hm with hm' | hm4
      · exfalso
        rcases List.mem_append.mp hm' with hm'' | hm3
        · rcases List.mem_append.mp hm'' with hm1 | hm2
          · revert hm1; split <;> simp
          · revert hm2; split <;> simp
        · revert hm3; split <;> simp
      · revert hm4
        split
        · rename_i hp; intro; exact hp
        · simp
    · intro hp
      refine List.mem_append.mpr (Or.inr ?_)
      rw [if_pos hp]
      simp
  rw [encodeLCIstring_buf cfg]
  by_cases hb : (emittedChunks cfg).flatten = []
  · rw [if_pos hb]
    have hno6 : ¬ 6 ∈ subelementIDs
        ([1, 0, 8] ++ List.replicate (34 + 6 * cfg.BSSIDS.length) 0) := by
      intro h6
      have := subIDsAux_zero_body (34 + 6 * cfg.BSSIDS.length) _ 3 (by omega) 6 h6
      norm_num at this
    have hnp : ¬ (cfg.wantUsageflag = true ∧
        (needLCIflag cfg ∨ needZflag cfg ∨ needBSSIDflag cfg)) := by
      intro hp
      unfold emittedChunks at hb
      simp only [List.flatten_append, List.append_eq_nil] at hb
      have h4 := hb.2
      rw [if_pos hp] at h4
      obtain ⟨nl, r2, he, -⟩ := encodeUsageField_isChunk cfg
      rw [he] at h4
      simp at h4
    exact iff_of_false hno6 hnp
  · rw [if_neg hb]
    unfold subelementIDs
    have hlen4 : (emittedChunks cfg).length ≤ 4 := by
      unfold emittedChunks
      simp only [List.length_append, apply_ite List.length, List.length_cons, List.length_nil]
      split_ifs <;> norm_num
    have hflen : 1 ≤ (emittedChunks cfg).flatten.length := List.length_pos.mpr hb
    have := subIDsAux_chunks _ _ (emittedChunks_forall₂ cfg hwf) [1, 0, 8]
      (([1, 0, 8] ++ (emittedChunks cfg).flatten : Buf).length)
      (by simp only [List.length_append]; simp only [List.length_cons, List.length_nil]; omega)
    rw [show (([1, 0, 8] : Buf)).length = 3 from rfl] at this
    rw [this]
    exact hids6

/-- Projection of `decodeLCIstring` to its diagnostics. -/
theorem decodeLCIstring_diags (cfg : LocationConfiguration) (buf : Buf) :
    (decodeLCIstring cfg buf).2.1 =
      (if getoctet buf 0 ≠ 1 ∨ getoctet buf 1 ≠ 0 ∨ getoctet buf 2 ≠ 8 then
        [Diag.BadHeader (getoctet buf 0) (getoctet buf 1) (getoctet buf 2)] else []) ++
      (decodeLoop buf buf.length cfg 3 buf.length).2.1 ++
      checksettings (decodeLoop buf buf.length cfg 3 buf.length).1 := by
  simp [decodeLCIstring]

/-- C6 counterexample: with only the Usage include-flag set and a
non-default latitude, none of the LCI/Z/BSSID subelements is emitted,
yet the Usage subelement is -- the output's only subelement ID is 6. -/
theorem C6_counterexample :
    subelementIDs (encodeLCIstring cfgOnlyUsage).1 = [6] ∧
    0 ∉ subelementIDs (encodeLCIstring cfgOnlyUsage).1 ∧
    4 ∉ subelementIDs (encodeLCIstring cfgOnlyUsage).1 ∧
    7 ∉ subelementIDs (encodeLCIstring cfgOnlyUsage).1 := by
  have hU := encodeUsageField_isChunk cfgOnlyUsage
  have hneed : needLCIflag cfgOnlyUsage := Or.inl (by norm_num [cfgOnlyUsage])
  have h1 : cfgOnlyUsage.wantLCIflag = false := rfl
  have h2 : cfgOnlyUsage.wantZflag = false := rfl
  have h3 : cfgOnlyUsage.wantColocatedflag = false := rfl
  have h4 : cfgOnlyUsage.wantUsageflag = true := rfl
  have hchunks : emittedChunks cfgOnlyUsage = [(encodeUsageField cfgOnlyUsage).1] := by
    unfold emittedChunks
    rw [if_neg (by rw [h1]; simp), if_neg (by rw [h2]; simp),
      if_neg (by rw [h3]; simp), if_pos ⟨h4, Or.inl hneed⟩]
    simp
  have hne : (emittedChunks cfgOnlyUsage).flatten ≠ [] := by
    rw [hchunks]
    obtain ⟨nl, r2, he, -⟩ := hU
    simp [he]
  have hids : subelementIDs (encodeLCIstring cfgOnlyUsage).1 = [6] := by
    rw [encodeLCIstring_buf cfgOnlyUsage, if_neg hne, hchunks]
    unfold subelementIDs
    have hlen : ([(encodeUsageField cfgOnlyUsage).1] : List (List ℕ)).length ≤
        (([1, 0, 8] : Buf) ++ ([(encodeUsageField cfgOnlyUsage).1]).flatten).length := by
      simp
    have := subIDsAux_chunks [(encodeUsageField cfgOnlyUsage).1] [6]
      (.cons hU .nil) [1, 0, 8] _ hlen
    simpa using this
  refine ⟨hids, ?_, ?_, ?_⟩ <;> rw [hids] <;> decide

/-- Witness for the amended C6 at the default configuration (all
include-flags set, every value default: no Usage subelement emitted). -/
theorem C6_usage_emission_witness :
    (∀ m ∈ defaultConfig.BSSIDS, m.length = 6) ∧
    (6 ∈ subelementIDs (encodeLCIstring defaultConfig).1 ↔
      defaultConfig.wantUsageflag = true ∧
        (needLCIflag defaultConfig ∨ needZflag defaultConfig ∨ needBSSIDflag defaultConfig)) :=
  ⟨by decide, C6_usage_emission defaultConfig (by decide)⟩

/-- C2 (amended): out-of-range LCI uncertainty codes (6-bit fields,
maximum 34) are reported *and* clamped, but an out-of-range Z height
uncertainty octet (maximum 24) is only reported -- the raw code is used
unclamped when computing the physical uncertainty. -/
theorem C2_range_handling (cfg : LocationConfiguration) (buf : Buf) (indx nbyt : ℕ)
    (hla : 34 < getbits buf indx 6) (hlo : 34 < getbits buf (indx + 40) 6)
    (hal : 34 < getbits buf (indx + 84) 6) (hz : 24 < getoctet buf (nbyt + 5)) :
    (decodeLCIfield cfg buf indx).1.latitude_uncertainty = decodebinarydot 34 8 ∧
    Diag.RangeViolation .latU (getbits buf indx 6) ∈ (decodeLCIfield cfg buf indx).2.2.1 ∧
    (decodeLCIfield cfg buf indx).1.longitude_uncertainty = decodebinarydot 34 8 ∧
    Diag.RangeViolation .lonU (getbits buf (indx + 40) 6) ∈
      (decodeLCIfield cfg buf indx).2.2.1 ∧
    (decodeLCIfield cfg buf indx).1.altitude_uncertainty = decodebinarydot 34 21 ∧
    Diag.RangeViolation .altU (getbits buf (indx + 84) 6) ∈
      (decodeLCIfield cfg buf indx).2.2.1 ∧
    (decodeZcase cfg buf nbyt 6).1.sta_height_above_floor_uncertainty =
      decodebinarydot (getoctet buf (nbyt + 5)) 11 ∧
    Diag.RangeViolation .zU (getoctet buf (nbyt + 5)) ∈ (decodeZcase cfg buf nbyt 6).2.1 := by
  obtain ⟨a1, a2, a3, a4, a5, a6⟩ := decodeLCIfield_clamp cfg buf indx hla hlo hal
  obtain ⟨b1, b2⟩ := decodeZcase_unclamped cfg buf nbyt hz
  exact ⟨a1, a2, a3, a4, a5, a6, b1, b2⟩

/-- Witness for the amended C2 on an all-ones buffer (every 6-bit code
63, Z uncertainty octet 255). -/
theorem C2_range_handling_witness :
    24 < getoctet (List.replicate 16 255) 5 ∧
    (decodeZcase defaultConfig (List.replicate 16 255) 0 6).1.sta_height_above_floor_uncertainty
      = decodebinarydot (getoctet (List.replicate 16 255) 5) 11 ∧
    (decodeLCIfield defaultConfig (List.replicate 16 255) 0).1.latitude_uncertainty
      = decodebinarydot 34 8 :=
  ⟨by decide,
   (C2_range_handling defaultConfig (List.replicate 16 255) 0 0
     (by decide) (by decide) (by decide) (by decide)).2.2.2.2.2.2.1,
   (C2_range_handling defaultConfig (List.replicate 16 255) 0 0
     (by decide) (by decide) (by decide) (by decide)).1⟩

/-- C2 counterexample: decoding a string whose Z subelement carries the
uncertainty code 25 (> 24) yields the *unclamped* physical uncertainty
`2^(11-25)` -- the claim's clamped value would be `2^(11-24)` -- even
though the range violation is reported. -/
theorem C2_counterexample :
    (decodeLCIstring defaultConfig
        [1, 0, 8, 4, 6, 0, 0, 0, 0, 0, 25]).1.sta_height_above_floor_uncertainty =
      decodebinarydot 25 11 ∧
    Diag.RangeViolation .zU 25 ∈
      (decodeLCIstring defaultConfig [1, 0, 8, 4, 6, 0, 0, 0, 0, 0, 25]).2.1 ∧
    decodebinarydot 25 11 ≠ decodebinarydot 24 11 := by
  have hstep := decodeLoop_Z_step [1, 0, 8, 4, 6, 0, 0, 0, 0, 0, 25] 11 defaultConfig 3 10
    (by decide) (by decide) (by omega)
  have hend := decodeLoop_end [1, 0, 8, 4, 6, 0, 0, 0, 0, 0, 25] 11
    (decodeZcase defaultConfig [1, 0, 8, 4, 6, 0, 0, 0, 0, 0, 25] 5 6).1 11 10 (by omega)
  obtain ⟨hu, hd⟩ := decodeZcase_unclamped defaultConfig
    [1, 0, 8, 4, 6, 0, 0, 0, 0, 0, 25] 5 (by decide)
  have hne : decodebinarydot 25 11 ≠ decodebinarydot 24 11 := by
    unfold decodebinarydot
    norm_num
  have hg : getoctet ([1, 0, 8, 4, 6, 0, 0, 0, 0, 0, 25] : Buf) 10 = 25 := by decide
  refine ⟨?_, ?_, hne⟩
  · rw [decodeLCIstring_cfg]
    rw [show (([1, 0, 8, 4, 6, 0, 0, 0, 0, 0, 25] : Buf)).length = 11 from rfl]
    rw [show (11 : ℕ) = 10 + 1 from rfl, hstep, hend]
    rw [hg] at hu
    exact hu
  · rw [decodeLCIstring_diags]
    rw [show (([1, 0, 8, 4, 6, 0, 0, 0, 0, 0, 25] : Buf)).length = 11 from rfl]
    rw [show (11 : ℕ) = 10 + 1 from rfl, hstep]
    rw [if_neg (by decide)]
    rw [hg] at hd
    refine List.mem_append.mpr (Or.inl (List.mem_append.mpr (Or.inr ?_)))
    rw [hend]
    simpa using hd

/-- C4 (amended): the uncertainty exponent codes pair with `m = 8` for
both latitude and longitude (not 25) and `m = 21` for altitude, on both
sides: encoding a positive uncertainty `2^(8-c)` (resp. `2^(21-c)`)
emits code `c`, and decoding an in-range nonzero code `c` yields
`decodebinarydot c 8` (resp. `decodebinarydot c 21`) = `2^(m-c)`. -/
theorem C4_m_values (cfg : LocationConfiguration) (buf : Buf) (indx : ℕ) (c1 c2 c3 : ℕ)
    (hc1 : 1 ≤ c1) (hc1' : c1 ≤ 34)
    (hu1 : cfg.latitude_uncertainty = (2 : ℚ) ^ ((8 : ℤ) - (c1 : ℤ)))
    (hc2 : 1 ≤ c2) (hc2' : c2 ≤ 34)
    (hu2 : cfg.longitude_uncertainty = (2 : ℚ) ^ ((8 : ℤ) - (c2 : ℤ)))
    (hc3 : 1 ≤ c3) (hc3' : c3 ≤ 34)
    (hu3 : cfg.altitude_uncertainty = (2 : ℚ) ^ ((21 : ℤ) - (c3 : ℤ)))
    (hd1 : getbits buf indx 6 ≤ 34) (hd2 : getbits buf (indx + 40) 6 ≤ 34)
    (hd3 : getbits buf (indx + 84) 6 ≤ 34) :
    (∃ payload : Buf, (encodeLCIfield cfg).1 = 0 :: 16 :: payload ∧
      getbits payload 0 6 = c1 ∧ getbits payload 40 6 = c2 ∧ getbits payload 84 6 = c3) ∧
    ((decodeLCIfield cfg buf indx).1.latitude_uncertainty =
      if getbits buf indx 6 = 0 then 0 else decodebinarydot (getbits buf indx 6) 8) ∧
    ((decodeLCIfield cfg buf indx).1.longitude_uncertainty =
      if getbits buf (indx + 40) 6 = 0 then 0
      else decodebinarydot (getbits buf (indx + 40) 6) 8) ∧
    ((decodeLCIfield cfg buf indx).1.altitude_uncertainty =
      if getbits buf (indx + 84) 6 = 0 then 0
      else decodebinarydot (getbits buf (indx + 84) 6) 21) := by
  obtain ⟨payload, hp, -, -, hb1, -, hb2, -, hb3, -⟩ :=
    encodeLCIfield_fields cfg c1 c2 c3 hc1 hc1' hu1 hc2 hc2' hu2 hc3 hc3' hu3
  obtain ⟨hq1, hq2, hq3⟩ := decodeLCIfield_unc_inrange cfg buf indx hd1 hd2 hd3
  exact ⟨⟨payload, hp, hb1, hb2, hb3⟩, hq1, hq2, hq3⟩

/-- Witness for the amended C4: uncertainties `2^(8-10)`, `2^(8-10)`,
`2^(21-13)` and a buffer whose latitude uncertainty code field reads 8. -/
theorem C4_m_values_witness :
    cfgAltNeg.latitude_uncertainty = (2 : ℚ) ^ ((8 : ℤ) - ((10 : ℕ) : ℤ)) ∧
    getbits [8] 0 6 = 8 ∧
    ((decodeLCIfield cfgAltNeg [8] 0).1.latitude_uncertainty =
      if getbits [8] 0 6 = 0 then 0 else decodebinarydot (getbits [8] 0 6) 8) ∧
    (∃ payload : Buf, (encodeLCIfield cfgAltNeg).1 = 0 :: 16 :: payload ∧
      getbits payload 0 6 = 10 ∧ getbits payload 40 6 = 10 ∧ getbits payload 84 6 = 13) := by
  have h := C4_m_values cfgAltNeg [8] 0 10 10 13
    (by norm_num) (by norm_num) (by norm_num [cfgAltNeg])
    (by norm_num) (by norm_num) (by norm_num [cfgAltNeg])
    (by norm_num) (by norm_num) (by norm_num [cfgAltNeg])
    (by decide) (by decide) (by decide)
  exact ⟨by norm_num [cfgAltNeg], by decide, h.2.1, h.1⟩

/-- C4 counterexample: a buffer whose 6-bit latitude uncertainty code is
8 decodes to the physical uncertainty `2^(8-8) = 1`, not the claim's
`2^(25-8) = 2^17`. -/
theorem C4_counterexample :
    (decodeLCIfield defaultConfig [8] 0).1.latitude_uncertainty = 1 ∧
    (2 : ℚ) ^ ((25 : ℤ) - 8) ≠ 1 := by
  constructor
  · obtain ⟨hq1, -, -⟩ := decodeLCIfield_unc_inrange defaultConfig [8] 0
      (by decide) (by decide) (by decide)
    rw [hq1]
    rw [show getbits [8] 0 6 = 8 from by decide]
    norm_num [decodebinarydot]
  · norm_num

/-- The concrete octet string encoded for `cfgFloorNeg`: header, then a
single Z subelement whose 16-bit floor field holds the two's complement
image of `trunc(-1 * 16) << 2`. -/
theorem encode_cfgFloorNeg :
    (encodeLCIstring cfgFloorNeg).1 = [1, 0, 8, 4, 6, 255, 192, 0, 0, 0, 0] := by
  have hmul : cfgFloorNeg.sta_floor * 16 = ((-16 : ℤ) : ℚ) := by
    norm_num [cfgFloorNeg]
  have hmul2 : cfgFloorNeg.sta_height_above_floor * 4096 = ((0 : ℤ) : ℚ) := by
    norm_num [cfgFloorNeg]
  have hunc : ¬ (0 < cfgFloorNeg.sta_height_above_floor_uncertainty) := by
    norm_num [cfgFloorNeg]
  have hz : (encodeZfield cfgFloorNeg).1 = [4, 6, 255, 192, 0, 0, 0, 0] := by
    simp only [encodeZfield, hmul, hmul2, ctrunc_intCast, if_neg hunc,
      show cfgFloorNeg.expected_to_move = 0 from rfl,
      show cfgFloorNeg.smallestflag = false from rfl]
    decide
  have hchunks : emittedChunks cfgFloorNeg = [(encodeZfield cfgFloorNeg).1] := by
    unfold emittedChunks
    rw [if_neg (by rw [show cfgFloorNeg.wantLCIflag = false from rfl]; simp),
      if_pos (show cfgFloorNeg.wantZflag = true from rfl),
      if_neg (by rw [show cfgFloorNeg.wantColocatedflag = false from rfl]; simp),
      if_neg (by rw [show cfgFloorNeg.wantUsageflag = false from rfl]; simp)]
    simp
  rw [encodeLCIstring_buf cfgFloorNeg, hchunks, hz]
  rw [if_neg (by decide)]
  decide

/-- C3 counterexample: a floor of -1 is encoded by truncation into an
unsigned-read field, and the round trip returns 1023, not -1 -- the
decoder applies no sign extension. -/
theorem C3_counterexample :
    cfgFloorNeg.sta_floor = -1 ∧
    (decodeLCIstring defaultConfig (encodeLCIstring cfgFloorNeg).1).1.sta_floor = 1023 ∧
    ((1023 : ℚ) ≠ -1) := by
  refine ⟨by norm_num [cfgFloorNeg], ?_, by norm_num⟩
  rw [encode_cfgFloorNeg]
  have hstep := decodeLoop_Z_step [1, 0, 8, 4, 6, 255, 192, 0, 0, 0, 0] 11 defaultConfig 3 10
    (by decide) (by decide) (by omega)
  have hend := decodeLoop_end [1, 0, 8, 4, 6, 255, 192, 0, 0, 0, 0] 11
    (decodeZcase defaultConfig [1, 0, 8, 4, 6, 255, 192, 0, 0, 0, 0] 5 6).1 11 10 (by omega)
  rw [decodeLCIstring_cfg]
  rw [show (([1, 0, 8, 4, 6, 255, 192, 0, 0, 0, 0] : Buf)).length = 11 from rfl]
  rw [show (11 : ℕ) = 10 + 1 from rfl, hstep, hend]
  have hfl := (decodeZcase_spec defaultConfig [1, 0, 8, 4, 6, 255, 192, 0, 0, 0, 0] 5).1
  rw [hfl]
  rw [show getnumber ([1, 0, 8, 4, 6, 255, 192, 0, 0, 0, 0] : Buf) 5 2 = 65472 from by decide]
  norm_num

/-- C3 (amended): the Z fixed-point fields are encoded by C `(int)`
truncation (not rounding) into two's complement octets, and decoded as
*unsigned* fields (no sign extension) divided by `2^4` and `2^12`. -/
theorem C3_z_fixed_point (cfg : LocationConfiguration) (buf : Buf) (nbyt : ℕ) :
    (∃ uc : ℕ, (encodeZfield cfg).1 = 4 :: 6 ::
      (numberBytes 2 (cfg.expected_to_move.emod 4 + ctrunc (cfg.sta_floor * 16) * 4) ++
       numberBytes 3 (ctrunc (cfg.sta_height_above_floor * 4096)) ++
       numberBytes 1 ((uc : ℕ) : ℤ))) ∧
    (decodeZcase cfg buf nbyt 6).1.sta_floor = ((getnumber buf nbyt 2 / 4 : ℕ) : ℚ) / 16 ∧
    (decodeZcase cfg buf nbyt 6).1.sta_height_above_floor =
      ((getnumber buf (nbyt + 2) 3 : ℕ) : ℚ) / 4096 := by
  refine ⟨?_, (decodeZcase_spec cfg buf nbyt).1, (decodeZcase_spec cfg buf nbyt).2.1⟩
  simp only [encodeZfield]
  exact ⟨_, rfl⟩

/-- Octets touched by a bit-field read lie below the end bit's octet. -/
theorem bitReads_le (s n : ℕ) : ∀ i ∈ bitReads s n, 8 * i < s + n := by
  intro i hi
  simp only [bitReads, List.mem_map, List.mem_range] at hi
  obtain ⟨k, hk, rfl⟩ := hi
  omega

/-- Octets touched by a number read lie below its end. -/
theorem numReads_le (p n : ℕ) : ∀ i ∈ numReads p n, i < p + n := by
  intro i hi
  simp only [numReads, List.mem_map, List.mem_range] at hi
  obtain ⟨k, hk, rfl⟩ := hi
  omega

/-- Every octet the LCI field decoder reads lies inside its 16 octets. -/
theorem decodeLCIfield_reads_le (cfg : LocationConfiguration) (buf : Buf) (indx : ℕ) :
    ∀ i ∈ (decodeLCIfield cfg buf indx).2.2.2, 8 * i < indx + 128 := by
  intro i hi
  have hproj : (decodeLCIfield cfg buf indx).2.2.2 =
      bitReads indx 6 ++ bitReads (indx + 6) 34 ++ bitReads (indx + 40) 6 ++
      bitReads (indx + 46) 34 ++ bitReads (indx + 80) 4 ++ bitReads (indx + 84) 6 ++
      bitReads (indx + 90) 30 ++ bitReads (indx + 120) 3 ++ bitReads (indx + 123) 1 ++
      bitReads (indx + 124) 1 ++ bitReads (indx + 125) 1 ++ bitReads (indx + 126) 2 := rfl
  rw [hproj] at hi
  simp only [List.mem_append] at hi
  rcases hi with
    (((((((((((hi | hi) | hi) | hi) | hi) | hi) | hi) | hi) | hi) | hi) | hi) | hi) <;>
    (have hb := bitReads_le _ _ _ hi; omega)

/-- Every octet the Z case reads lies within 6 octets of its start. -/
theorem decodeZcase_reads_le (cfg : LocationConfiguration) (buf : Buf) (p nlen : ℕ) :
    ∀ i ∈ (decodeZcase cfg buf p nlen).2.2.1, i ≤ p + 5 := by
  intro i hi
  rcases eq_or_ne nlen 5 with rfl | h5
  · simp only [decodeZcase, eq_self_iff_true, if_true] at hi
    simp only [List.mem_append, List.mem_singleton] at hi
    rcases hi with (hi | hi) | rfl
    · have := numReads_le _ _ _ hi; omega
    · have := numReads_le _ _ _ hi; omega
    · omega
  · simp only [decodeZcase, if_neg h5] at hi
    simp only [List.mem_append, List.mem_singleton] at hi
    rcases hi with (hi | hi) | rfl
    · have := numReads_le _ _ _ hi; omega
    · have := numReads_le _ _ _ hi; omega
    · omega

/-- Every octet the Usage case reads lies within the declared payload. -/
theorem decodeUsageCase_reads_le (cfg : LocationConfiguration) (buf : Buf) (p nlen : ℕ) :
    ∀ i ∈ (decodeUsageCase cfg buf p nlen).2.2.1, i ≤ p + (nlen - 1) := by
  intro i hi
  rcases eq_or_ne nlen 1 with rfl | h1
  · simp only [decodeUsageCase, eq_self_iff_true, if_true] at hi
    simp at hi
    omega
  · rcases eq_or_ne nlen 3 with rfl | h3
    · simp only [decodeUsageCase, if_neg h1, eq_self_iff_true, if_true] at hi
      simp only [List.singleton_append, List.mem_cons] at hi
      rcases hi with rfl | hi
      · omega
      · have := numReads_le _ _ _ hi; omega
    · simp only [decodeUsageCase, if_neg h1, if_neg h3] at hi
      simp at hi
      omega

/-- Every octet the colocated-BSSID case reads lies within the declared
payload. -/
theorem decodeColocatedBSSID_reads_le (buf : Buf) (p nlen : ℕ) :
    ∀ i ∈ (decodeColocatedBSSID buf p nlen).2.2.2, i ≤ p + (nlen - 1) := by
  intro i hi
  simp only [decodeColocatedBSSID, List.mem_cons, List.mem_map, List.mem_range] at hi
  rcases hi with rfl | ⟨k, hk, rfl⟩
  · omega
  · omega

/-- One non-malformed iteration of the loop: the reads are the two
header octets, a subelement read list bounded by `slen`, and the reads
of the continuation. -/
theorem decodeLoop_step_reads (buf : Buf) (slen : ℕ) (cfg : LocationConfiguration)
    (nbyt f : ℕ) (hlt : nbyt < slen)
    (hml : ¬ slen < nbyt + 2 + getoctet buf (nbyt + 1)) :
    ∃ (cfg' : LocationConfiguration) (rd : List ℕ) (nx : ℕ),
      (decodeLoop buf slen cfg nbyt (f + 1)).2.2 =
        [nbyt, nbyt + 1] ++ rd ++ (decodeLoop buf slen cfg' nx f).2.2 ∧
      (∀ i ∈ rd, i ≤ slen) := by
  rw [decodeLoop, if_pos hlt, if_neg hml]
  obtain ⟨nlen, hn⟩ : ∃ w, getoctet buf (nbyt + 1) = w := ⟨_, rfl⟩
  rw [hn] at hml ⊢
  obtain ⟨v, hg⟩ : ∃ w, getoctet buf nbyt = w := ⟨_, rfl⟩
  rw [hg]
  rcases v with _ | _ | _ | _ | _ | _ | _ | _ | v
  · -- ID 0: LCI
    by_cases h0 : nlen = 0
    · subst h0
      exact ⟨cfg, [], nbyt + 2, by simp, by simp⟩
    · by_cases h16 : nlen = 16
      · subst h16
        refine ⟨(decodeLCIfield cfg buf (8 * (nbyt + 2))).1,
          (decodeLCIfield cfg buf (8 * (nbyt + 2))).2.2.2,
          (decodeLCIfield cfg buf (8 * (nbyt + 2))).2.1 / 8, by simp, ?_⟩
        intro i hi
        have := decodeLCIfield_reads_le cfg buf (8 * (nbyt + 2)) i hi
        omega
      · refine ⟨cfg, [], nbyt + 2 + nlen, ?_, by simp⟩
        simp only [if_neg h0]
        simp [h16]
  · exact ⟨cfg, [], nbyt + 2 + nlen, by simp, by simp⟩
  · exact ⟨cfg, [], nbyt + 2 + nlen, by simp, by simp⟩
  · exact ⟨cfg, [], nbyt + 2 + nlen, by simp, by simp⟩
  · -- ID 4: Z
    by_cases h65 : nlen = 6 ∨ nlen = 5
    · refine ⟨(decodeZcase cfg buf (nbyt + 2) nlen).1,
        (decodeZcase cfg buf (nbyt + 2) nlen).2.2.1,
        (decodeZcase cfg buf (nbyt + 2) nlen).2.2.2, ?_, ?_⟩
      · simp only [if_pos h65]
      · intro i hi
        have := decodeZcase_reads_le cfg buf (nbyt + 2) nlen i hi
        omega
    · refine ⟨cfg, [], nbyt + 2 + nlen, ?_, by simp⟩
      simp only [if_neg h65]
  · exact ⟨cfg, [], nbyt + 2 + nlen, by simp, by simp⟩
  · -- ID 6: Usage
    by_cases h13 : nlen = 1 ∨ nlen = 3
    · refine ⟨(decodeUsageCase cfg buf (nbyt + 2) nlen).1,
        (decodeUsageCase cfg buf (nbyt + 2) nlen).2.2.1,
        (decodeUsageCase cfg buf (nbyt + 2) nlen).2.2.2, ?_, ?_⟩
      · simp only [if_pos h13]
      · intro i hi
        have := decodeUsageCase_reads_le cfg buf (nbyt + 2) nlen i hi
        omega
    · refine ⟨cfg, [], nbyt + 2 + nlen, ?_, by simp⟩
      simp only [if_neg h13]
  · -- ID 7: colocated BSSIDs
    refine ⟨{ cfg with BSSIDS := (decodeColocatedBSSID buf (nbyt + 2) nlen).1 },
      (decodeColocatedBSSID buf (nbyt + 2) nlen).2.2.2,
      (decodeColocatedBSSID buf (nbyt + 2) nlen).2.1, by simp, ?_⟩
    intro i hi
    have := decodeColocatedBSSID_reads_le buf (nbyt + 2) nlen i hi
    omega
  · -- IDs ≥ 8: unknown subelement
    exact ⟨cfg, [], nbyt + 2 + nlen, by simp, by simp⟩

/-- No octet index the subelement loop reads exceeds `slen` (reading
*at* `slen` -- one octet past the last -- does happen). -/
theorem decodeLoop_reads_le (buf : Buf) (slen : ℕ) :
    ∀ (fuel : ℕ) (cfg : LocationConfiguration) (nbyt : ℕ),
      ∀ i ∈ (decodeLoop buf slen cfg nbyt fuel).2.2, i ≤ slen := by
  intro fuel
  induction fuel with
  | zero => intro cfg nbyt i hi; simp [decodeLoop] at hi
  | succ f ih =>
    intro cfg nbyt i hi
    by_cases hlt : nbyt < slen
    · by_cases hml : slen < nbyt + 2 + getoctet buf (nbyt + 1)
      · rw [decodeLoop_malformed buf slen cfg nbyt f hlt hml] at hi
        simp at hi
        omega
      · obtain ⟨cfg', rd, nx, heq, hbd⟩ := decodeLoop_step_reads buf slen cfg nbyt f hlt hml
        rw [heq] at hi
        simp only [List.mem_append, List.cons_append, List.nil_append, List.mem_cons] at hi
        rcases hi with rfl | rfl | h | hi
        · omega
        · omega
        · exact hbd i h
        · exact ih cfg' nx i hi
    · rw [decodeLoop, if_neg hlt] at hi
      simp at hi

/-- C7 (amended): a declared subelement length overrunning the buffer
stops the loop with a MalformedInput diagnostic after reading only the
two header octets of that subelement; and no octet index the decoder
ever reads exceeds `max slen 2` -- which admits a read *at* index
`slen`, one octet past the last stored octet (it happens when an ID
octet is the last octet of the string), so the stronger "never reads
any octet beyond the buffer end" is false. -/
theorem C7_bounds (cfg : LocationConfiguration) (buf : Buf) :
    (∀ i ∈ (decodeLCIstring cfg buf).2.2, i ≤ max buf.length 2) ∧
    (∀ (nbyt fuel : ℕ) (c : LocationConfiguration), nbyt < buf.length →
      buf.length < nbyt + 2 + getoctet buf (nbyt + 1) →
      decodeLoop buf buf.length c nbyt (fuel + 1) =
        (c, [Diag.MalformedInput (getoctet buf nbyt) (getoctet buf (nbyt + 1)) (nbyt + 2)],
         [nbyt, nbyt + 1])) := by
  constructor
  · intro i hi
    rw [decodeLCIstring_reads] at hi
    simp only [List.cons_append, List.nil_append, List.mem_cons] at hi
    rcases hi with rfl | rfl | rfl | hi
    · omega
    · omega
    · omega
    · have := decodeLoop_reads_le buf buf.length buf.length cfg 3 i hi
      omega
  · intro nbyt fuel c h1 h2
    exact decodeLoop_malformed buf buf.length c nbyt fuel h1 h2

/-- Witness for the amended C7 on the malformed string `01 00 08 aa`:
the read at index 4 equals the string length, and the loop stops with
MalformedInput. -/
theorem C7_bounds_witness :
    (4 ∈ (decodeLCIstring defaultConfig [1, 0, 8, 170]).2.2 → 4 ≤ max 4 2) ∧
    decodeLoop [1, 0, 8, 170] 4 defaultConfig 3 (3 + 1) =
      (defaultConfig, [Diag.MalformedInput 170 0 5], [3, 4]) := by
  have h := C7_bounds defaultConfig [1, 0, 8, 170]
  constructor
  · intro hm
    have := h.1 4 hm
    simp

  · have h2 := h.2 3 3 defaultConfig (by decide) (by decide)
    rw [show getoctet ([1, 0, 8, 170] : Buf) 3 = 170 from by decide,
      show getoctet ([1, 0, 8, 170] : Buf) 4 = 0 from by decide] at h2
    exact h2

/-- C7 counterexample: on `01 00 08 aa` the decoder reports the
malformed subelement but *does* read octet index 4 = slen, one past the
end of the 4-octet string (the length octet of the truncated
subelement). -/
theorem C7_counterexample :
    ([1, 0, 8, 170] : Buf).length = 4 ∧
    4 ∈ (decodeLCIstring defaultConfig [1, 0, 8, 170]).2.2 ∧
    Diag.MalformedInput 170 0 5 ∈ (decodeLCIstring defaultConfig [1, 0, 8, 170]).2.1 := by
  refine ⟨rfl, ?_, ?_⟩ <;> decide

/-- Recombining `putnumber`'s octets through `getnumber`. -/
theorem getnumber_numberBytes (ndig : ℕ) (num : ℤ) :
    getnumber (numberBytes ndig num) 0 ndig =
      (num.emod (2 ^ 32)).toNat % 2 ^ (8 * ndig) :=
  getnumber_eq_of_bytes _ 0 ndig _ (fun j hj => by
    rw [Nat.zero_add]
    exact getoctet_numberBytes ndig num j hj)

/-- A small natural number passes `putnumber`/`getoctet` unchanged. -/
theorem getoctet_numberBytes_one (c : ℕ) (h : c < 256) :
    getoctet (numberBytes 1 ((c : ℕ) : ℤ)) 0 = c := by
  rw [getoctet_numberBytes 1 _ 0 (by omega)]
  have h1 : ((c : ℤ)).emod (2 ^ 32) = (c : ℤ) :=
    Int.emod_eq_of_lt (by positivity) (by exact_mod_cast (by omega : c < 2 ^ 32))
  rw [h1, Int.toNat_natCast]
  simp only [Nat.sub_self, Nat.sub_zero, Nat.mul_zero, Nat.shiftRight_zero, and255_eq_mod]
  omega

/-- The 64-bit image of a small natural reduced at a smaller width. -/
theorem getnumber_numberBytes_natCast (ndig : ℕ) (n : ℕ) (h32 : 8 * ndig ≤ 32)
    (h : n < 2 ^ (8 * ndig)) :
    getnumber (numberBytes ndig ((n : ℕ) : ℤ)) 0 ndig = n := by
  rw [getnumber_numberBytes]
  have h1 : ((n : ℤ)).emod (2 ^ 32) = (n : ℤ) := by
    apply Int.emod_eq_of_lt (by positivity)
    have : (n : ℤ) < 2 ^ (8 * ndig) := by exact_mod_cast h
    calc (n : ℤ) < 2 ^ (8 * ndig) := this
      _ ≤ 2 ^ 32 := by
        apply pow_le_pow_right₀ (by norm_num) h32
  rw [h1, Int.toNat_natCast, Nat.mod_eq_of_lt h]

/-- C5 counterexample: `cfgAltNeg` has every uncertainty an exactly
representable power of two with in-range code, yet the altitude -1 comes
back from the round trip as 4194303 (the 30-bit field is read back
unsigned). -/
theorem C5_counterexample :
    cfgAltNeg.altitude = -1 ∧
    cfgAltNeg.altitude_uncertainty = (2 : ℚ) ^ ((21 : ℤ) - ((13 : ℕ) : ℤ)) ∧
    (decodeLCIstring defaultConfig (encodeLCIstring cfgAltNeg).1).1.altitude = 4194303 ∧
    ((4194303 : ℚ) ≠ -1) := by
  obtain ⟨payload, hpc, hpd, hplen, hb1, hblat, hb2, hblon, hb3, hbalt⟩ :=
    encodeLCIfield_fields cfgAltNeg 10 10 13
      (by norm_num) (by norm_num) (by norm_num [cfgAltNeg])
      (by norm_num) (by norm_num) (by norm_num [cfgAltNeg])
      (by norm_num) (by norm_num) (by norm_num [cfgAltNeg])
  have hchunks : emittedChunks cfgAltNeg = [(encodeLCIfield cfgAltNeg).1] := by
    unfold emittedChunks
    rw [if_pos (show cfgAltNeg.wantLCIflag = true from rfl),
      if_neg (by rw [show cfgAltNeg.wantZflag = false from rfl]; simp),
      if_neg (by rw [show cfgAltNeg.wantColocatedflag = false from rfl]; simp),
      if_neg (by rw [show cfgAltNeg.wantUsageflag = false from rfl]; simp)]
    simp
  have hstr : (encodeLCIstring cfgAltNeg).1 = [1, 0, 8] ++ (0 :: 16 :: payload) := by
    rw [encodeLCIstring_buf cfgAltNeg, hchunks]
    rw [if_neg (by rw [hpc]; simp)]
    rw [hpc]
    simp
  have hb2form : ([1, 0, 8] : Buf) ++ (0 :: 16 :: payload) =
      [1, 0, 8, 0, 16] ++ payload ++ ([] : Buf) := by simp
  have hlen : (([1, 0, 8] : Buf) ++ (0 :: 16 :: payload)).length = 21 := by
    simp [hplen]
  have hbits : ∀ off n, off + n ≤ 128 →
      getbits ([1, 0, 8] ++ (0 :: 16 :: payload)) (40 + off) n = getbits payload off n := by
    intro off n h
    rw [hb2form]
    have := getbits_middle [1, 0, 8, 0, 16] payload [] off n (by rw [hplen]; omega)
    simpa using this
  have hg3 : getoctet ([1, 0, 8] ++ (0 :: 16 :: payload)) 3 = 0 := by
    rw [getoctet_append_right _ _ _ (by simp)]
    simp [getoctet]
  have hg4 : getoctet ([1, 0, 8] ++ (0 :: 16 :: payload)) 4 = 16 := by
    rw [getoctet_append_right _ _ _ (by simp)]
    simp [getoctet]
  refine ⟨by norm_num [cfgAltNeg], by norm_num [cfgAltNeg], ?_, by norm_num⟩
  rw [hstr, decodeLCIstring_cfg, hlen]
  have hstep := decodeLoop_LCI_step ([1, 0, 8] ++ (0 :: 16 :: payload)) 21 defaultConfig 3 20
    hg3 hg4 (by omega)
  rw [show (21 : ℕ) = 20 + 1 from rfl, hstep,
    decodeLoop_end _ 21 _ 21 20 (by omega)]
  have halt := (decodeLCIfield_spec defaultConfig ([1, 0, 8] ++ (0 :: 16 :: payload))
    (8 * (3 + 2))).2.2.1
  rw [show 8 * (3 + 2) = 40 from rfl] at halt
  rw [halt]
  have h90 := hbits 90 30 (by omega)
  rw [h90, hbalt]
  have haq : cfgAltNeg.altitude * 2 ^ 8 = ((-256 : ℤ) : ℚ) := by norm_num [cfgAltNeg]
  rw [haq, roundl_intCast]
  rw [show int64bits (-256) % 2 ^ 30 = 1073741568 from by decide]
  norm_num

/-- Decoding a string made of the header, an LCI chunk, a Z chunk and an
arbitrary tail: the configuration after the loop is the configuration
after the remaining loop run on the tail, started from the LCI-then-Z
decode of the two chunks. -/
theorem decode_header_LCI_Z (payload zpay U : Buf)
    (hplen : payload.length = 16) (hzlen : zpay.length = 6) :
    (decodeLCIstring defaultConfig
        ([1, 0, 8] ++ (0 :: 16 :: payload) ++ ((4 :: 6 :: zpay) ++ U))).1 =
      (decodeLoop ([1, 0, 8] ++ (0 :: 16 :: payload) ++ ((4 :: 6 :: zpay) ++ U))
        (29 + U.length)
        (decodeZcase
          (decodeLCIfield defaultConfig
            ([1, 0, 8] ++ (0 :: 16 :: payload) ++ ((4 :: 6 :: zpay) ++ U)) 40).1
          ([1, 0, 8] ++ (0 :: 16 :: payload) ++ ((4 :: 6 :: zpay) ++ U)) 23 6).1
        29 (27 + U.length)).1 := by
  set BUF : Buf := [1, 0, 8] ++ (0 :: 16 :: payload) ++ ((4 :: 6 :: zpay) ++ U) with hBUF
  have hlen : BUF.length = 29 + U.length := by
    rw [hBUF]
    simp [hplen, hzlen]
    omega
  have hg3 : getoctet BUF 3 = 0 := by
    rw [hBUF, List.append_assoc, getoctet_append_right _ _ _ (by simp)]
    simp [getoctet]
  have hg4 : getoctet BUF 4 = 16 := by
    rw [hBUF, List.append_assoc, getoctet_append_right _ _ _ (by simp)]
    simp [getoctet]
  have hg21 : getoctet BUF 21 = 4 := by
    have h21 : (([1, 0, 8] : Buf) ++ (0 :: 16 :: payload)).length = 21 := by simp [hplen]
    rw [hBUF, getoctet_append_right _ _ _ (by rw [h21]), h21]
    simp [getoctet]
  have hg22 : getoctet BUF 22 = 6 := by
    have h21 : (([1, 0, 8] : Buf) ++ (0 :: 16 :: payload)).length = 21 := by simp [hplen]
    rw [hBUF, getoctet_append_right _ _ _ (by rw [h21]; omega), h21]
    simp [getoctet]
  rw [decodeLCIstring_cfg, hlen]
  rw [show 29 + U.length = 27 + U.length + 1 + 1 from by omega]
  have hstep1 := decodeLoop_LCI_step BUF (27 + U.length + 1 + 1) defaultConfig 3
    (27 + U.length + 1) hg3 hg4 (by omega)
  rw [hstep1]
  rw [show (3 : ℕ) + 18 = 21 from rfl]
  have hstep2 := decodeLoop_Z_step BUF (27 + U.length + 1 + 1)
    (decodeLCIfield defaultConfig BUF (8 * (3 + 2))).1 21 (27 + U.length)
    hg21 hg22 (by omega)
  rw [hstep2]

set_option maxHeartbeats 1000000 in
/-- C5 (amended): with the LCI and Z subelements wanted and no colocated
BSSIDs, latitude/longitude on the signed 34-bit grid, nonnegative
altitude, floor and height on their grids, and every uncertainty an
exactly representable power of two with in-range code, the round trip
reproduces all nine physical fields exactly. -/
theorem C5_roundtrip (cfg : LocationConfiguration) (a b : ℤ) (c f k e c1 c2 c3 c4 : ℕ)
    (ha0 : -(2 ^ 33) ≤ a) (ha1 : a < 2 ^ 33)
    (hb0 : -(2 ^ 33) ≤ b) (hb1 : b < 2 ^ 33)
    (hc0 : c < 2 ^ 30) (hf0 : f < 2 ^ 14) (hk0 : k < 2 ^ 24) (he0 : e < 4)
    (hwL : cfg.wantLCIflag = true) (hwZ : cfg.wantZflag = true)
    (hBS : cfg.BSSIDS = [])
    (hla : cfg.latitude = (a : ℚ) / 2 ^ 25)
    (hlo : cfg.longitude = (b : ℚ) / 2 ^ 25)
    (hal : cfg.altitude = (c : ℚ) / 256)
    (hfl : cfg.sta_floor = (f : ℚ) / 16)
    (hhe : cfg.sta_height_above_floor = (k : ℚ) / 4096)
    (hem : cfg.expected_to_move = (e : ℕ))
    (hc1 : 1 ≤ c1) (hc1' : c1 ≤ 34)
    (hu1 : cfg.latitude_uncertainty = (2 : ℚ) ^ ((8 : ℤ) - (c1 : ℤ)))
    (hc2 : 1 ≤ c2) (hc2' : c2 ≤ 34)
    (hu2 : cfg.longitude_uncertainty = (2 : ℚ) ^ ((8 : ℤ) - (c2 : ℤ)))
    (hc3 : 1 ≤ c3) (hc3' : c3 ≤ 34)
    (hu3 : cfg.altitude_uncertainty = (2 : ℚ) ^ ((21 : ℤ) - (c3 : ℤ)))
    (hc4 : 1 ≤ c4) (hc4' : c4 ≤ 24)
    (hu4 : cfg.sta_height_above_floor_uncertainty = (2 : ℚ) ^ ((11 : ℤ) - (c4 : ℤ))) :
    (decodeLCIstring defaultConfig (encodeLCIstring cfg).1).1.latitude = cfg.latitude ∧
    (decodeLCIstring defaultConfig (encodeLCIstring cfg).1).1.longitude = cfg.longitude ∧
    (decodeLCIstring defaultConfig (encodeLCIstring cfg).1).1.altitude = cfg.altitude ∧
    (decodeLCIstring defaultConfig (encodeLCIstring cfg).1).1.latitude_uncertainty =
      cfg.latitude_uncertainty ∧
    (decodeLCIstring defaultConfig (encodeLCIstring cfg).1).1.longitude_uncertainty =
      cfg.longitude_uncertainty ∧
    (decodeLCIstring defaultConfig (encodeLCIstring cfg).1).1.altitude_uncertainty =
      cfg.altitude_uncertainty ∧
    (decodeLCIstring defaultConfig (encodeLCIstring cfg).1).1.sta_floor = cfg.sta_floor ∧
    (decodeLCIstring defaultConfig (encodeLCIstring cfg).1).1.sta_height_above_floor =
      cfg.sta_height_above_floor ∧
    (decodeLCIstring defaultConfig
        (encodeLCIstring cfg).1).1.sta_height_above_floor_uncertainty =
      cfg.sta_height_above_floor_uncertainty := by
  obtain ⟨payload, hpc, hpd, hplen, hg1, hglat, hg2, hglon, hg3c, hgalt⟩ :=
    encodeLCIfield_fields cfg c1 c2 c3 hc1 hc1' hu1 hc2 hc2' hu2 hc3 hc3' hu3
  obtain ⟨hzc, hzd⟩ := encodeZfield_fields cfg c4 hc4 hc4' hu4
  set nb2 := numberBytes 2 (cfg.expected_to_move.emod 4 + ctrunc (cfg.sta_floor * 16) * 4)
    with hnb2
  set nb3 := numberBytes 3 (ctrunc (cfg.sta_height_above_floor * 4096)) with hnb3
  set nb1 := numberBytes 1 ((c4 : ℤ)) with hnb1
  set zpay := nb2 ++ nb3 ++ nb1 with hzpay
  have hn2len : nb2.length = 2 := by rw [hnb2]; exact length_numberBytes _ _
  have hn3len : nb3.length = 3 := by rw [hnb3]; exact length_numberBytes _ _
  have hn1len : nb1.length = 1 := by rw [hnb1]; exact length_numberBytes _ _
  have hzplen : zpay.length = 6 := by
    rw [hzpay]
    simp [hn2len, hn3len, hn1len]
  -- values recovered from the Z payload bytes
  have hv2 : getnumber nb2 0 2 = e + 4 * f := by
    have hmulf : cfg.sta_floor * 16 = (((f : ℕ) : ℤ) : ℚ) := by
      rw [hfl]
      push_cast
      field_simp
    have he1 : ((e : ℕ) : ℤ) % 4 = ((e : ℕ) : ℤ) := by omega
    have hI : cfg.expected_to_move.emod 4 + ctrunc (cfg.sta_floor * 16) * 4 =
        ((e + 4 * f : ℕ) : ℤ) := by
      rw [hmulf, ctrunc_intCast, hem,
        show ((e : ℕ) : ℤ).emod 4 = ((e : ℕ) : ℤ) % 4 from rfl, he1]
      push_cast
      ring
    have hgn := getnumber_numberBytes_natCast 2 (e + 4 * f) (by norm_num) (by omega)
    rw [← hI] at hgn
    rw [hnb2]
    exact hgn
  have hv3 : getnumber nb3 0 3 = k := by
    have hmulk : cfg.sta_height_above_floor * 4096 = (((k : ℕ) : ℤ) : ℚ) := by
      rw [hhe]
      push_cast
      field_simp
    have hgn := getnumber_numberBytes_natCast 3 k (by norm_num) (by omega)
    rw [hnb3, hmulk, ctrunc_intCast]
    exact hgn
  have hv1 : getoctet nb1 0 = c4 := by
    rw [hnb1]
    exact getoctet_numberBytes_one c4 (by omega)
  -- signed/unsigned field arithmetic
  have hlatval : propagate_sign (int64bits (roundl (cfg.latitude * 2 ^ 25)) % 2 ^ 34) 34
      = a := by
    have h1 : cfg.latitude * 2 ^ 25 = ((a : ℤ) : ℚ) := by
      rw [hla]
      field_simp
    rw [h1, roundl_intCast, int64bits_mod _ 34 (by norm_num)]
    exact propagate_sign_emod34 a ha0 ha1
  have hlonval : propagate_sign (int64bits (roundl (cfg.longitude * 2 ^ 25)) % 2 ^ 34) 34
      = b := by
    have h1 : cfg.longitude * 2 ^ 25 = ((b : ℤ) : ℚ) := by
      rw [hlo]
      field_simp
    rw [h1, roundl_intCast, int64bits_mod _ 34 (by norm_num)]
    exact propagate_sign_emod34 b hb0 hb1
  have haltval : int64bits (roundl (cfg.altitude * 2 ^ 8)) % 2 ^ 30 = c := by
    have h1 : cfg.altitude * 2 ^ 8 = (((c : ℕ) : ℤ) : ℚ) := by
      rw [hal]
      push_cast
      field_simp
      norm_num
    rw [h1, roundl_intCast]
    exact int64bits_natCast_mod c 30 (by norm_num) hc0
  -- bit and byte reads from the assembled string, for any tail
  have hbitsU : ∀ (U : Buf) (off n : ℕ), off + n ≤ 128 →
      getbits ([1, 0, 8] ++ (0 :: 16 :: payload) ++ ((4 :: 6 :: zpay) ++ U)) (40 + off) n =
        getbits payload off n := by
    intro U off n h
    have hre : ([1, 0, 8] : Buf) ++ (0 :: 16 :: payload) ++ ((4 :: 6 :: zpay) ++ U) =
        [1, 0, 8, 0, 16] ++ payload ++ ((4 :: 6 :: zpay) ++ U) := by simp
    rw [hre]
    have := getbits_middle [1, 0, 8, 0, 16] payload ((4 :: 6 :: zpay) ++ U) off n
      (by rw [hplen]; omega)
    simpa using this
  have hn23U : ∀ U : Buf,
      getnumber ([1, 0, 8] ++ (0 :: 16 :: payload) ++ ((4 :: 6 :: zpay) ++ U)) 23 2 =
        getnumber nb2 0 2 := by
    intro U
    have hre : ([1, 0, 8] : Buf) ++ (0 :: 16 :: payload) ++ ((4 :: 6 :: zpay) ++ U) =
        ([1, 0, 8, 0, 16] ++ payload ++ [4, 6]) ++ nb2 ++ (nb3 ++ (nb1 ++ U)) := by
      rw [hzpay]
      simp
    rw [hre]
    have := getnumber_middle ([1, 0, 8, 0, 16] ++ payload ++ [4, 6]) nb2 (nb3 ++ (nb1 ++ U))
      0 2 (by rw [hn2len])
    simpa [hplen] using this
  have hn25U : ∀ U : Buf,
      getnumber ([1, 0, 8] ++ (0 :: 16 :: payload) ++ ((4 :: 6 :: zpay) ++ U)) 25 3 =
        getnumber nb3 0 3 := by
    intro U
    have hre : ([1, 0, 8] : Buf) ++ (0 :: 16 :: payload) ++ ((4 :: 6 :: zpay) ++ U) =
        (([1, 0, 8, 0, 16] ++ payload ++ [4, 6]) ++ nb2) ++ nb3 ++ (nb1 ++ U) := by
      rw [hzpay]
      simp
    rw [hre]
    have := getnumber_middle (([1, 0, 8, 0, 16] ++ payload ++ [4, 6]) ++ nb2) nb3 (nb1 ++ U)
      0 3 (by rw [hn3len])
    simpa [hplen, hn2len] using this
  have ho28U : ∀ U : Buf,
      getoctet ([1, 0, 8] ++ (0 :: 16 :: payload) ++ ((4 :: 6 :: zpay) ++ U)) 28 =
        getoctet nb1 0 := by
    intro U
    have hre : ([1, 0, 8] : Buf) ++ (0 :: 16 :: payload) ++ ((4 :: 6 :: zpay) ++ U) =
        ((([1, 0, 8, 0, 16] ++ payload ++ [4, 6]) ++ nb2) ++ nb3) ++ nb1 ++ U := by
      rw [hzpay]
      simp
    rw [hre]
    have := getoctet_middle ((([1, 0, 8, 0, 16] ++ payload ++ [4, 6]) ++ nb2) ++ nb3) nb1 U
      0 (by rw [hn1len]; omega)
    simpa [hplen, hn2len, hn3len] using this
  -- field characterization of the LCI+Z decode, for any tail
  have hfields : ∀ U : Buf,
      (decodeZcase (decodeLCIfield defaultConfig
          ([1, 0, 8] ++ (0 :: 16 :: payload) ++ ((4 :: 6 :: zpay) ++ U)) 40).1
        ([1, 0, 8] ++ (0 :: 16 :: payload) ++ ((4 :: 6 :: zpay) ++ U)) 23 6).1.latitude
          = cfg.latitude ∧
      (decodeZcase (decodeLCIfield defaultConfig
          ([1, 0, 8] ++ (0 :: 16 :: payload) ++ ((4 :: 6 :: zpay) ++ U)) 40).1
        ([1, 0, 8] ++ (0 :: 16 :: payload) ++ ((4 :: 6 :: zpay) ++ U)) 23 6).1.longitude
          = cfg.longitude ∧
      (decodeZcase (decodeLCIfield defaultConfig
          ([1, 0, 8] ++ (0 :: 16 :: payload) ++ ((4 :: 6 :: zpay) ++ U)) 40).1
        ([1, 0, 8] ++ (0 :: 16 :: payload) ++ ((4 :: 6 :: zpay) ++ U)) 23 6).1.altitude
          = cfg.altitude ∧
      (decodeZcase (decodeLCIfield defaultConfig
          ([1, 0, 8] ++ (0 :: 16 :: payload) ++ ((4 :: 6 :: zpay) ++ U)) 40).1
        ([1, 0, 8] ++ (0 :: 16 :: payload) ++
          ((4 :: 6 :: zpay) ++ U)) 23 6).1.latitude_uncertainty
          = cfg.latitude_uncertainty ∧
      (decodeZcase (decodeLCIfield defaultConfig
          ([1, 0, 8] ++ (0 :: 16 :: payload) ++ ((4 :: 6 :: zpay) ++ U)) 40).1
        ([1, 0, 8] ++ (0 :: 16 :: payload) ++
          ((4 :: 6 :: zpay) ++ U)) 23 6).1.longitude_uncertainty
          = cfg.longitude_uncertainty ∧
      (decodeZcase (decodeLCIfield defaultConfig
          ([1, 0, 8] ++ (0 :: 16 :: payload) ++ ((4 :: 6 :: zpay) ++ U)) 40).1
        ([1, 0, 8] ++ (0 :: 16 :: payload) ++
          ((4 :: 6 :: zpay) ++ U)) 23 6).1.altitude_uncertainty
          = cfg.altitude_uncertainty ∧
      (decodeZcase (decodeLCIfield defaultConfig
          ([1, 0, 8] ++ (0 :: 16 :: payload) ++ ((4 :: 6 :: zpay) ++ U)) 40).1
        ([1, 0, 8] ++ (0 :: 16 :: payload) ++ ((4 :: 6 :: zpay) ++ U)) 23 6).1.sta_floor
          = cfg.sta_floor ∧
      (decodeZcase (decodeLCIfield defaultConfig
          ([1, 0, 8] ++ (0 :: 16 :: payload) ++ ((4 :: 6 :: zpay) ++ U)) 40).1
        ([1, 0, 8] ++ (0 :: 16 :: payload) ++
          ((4 :: 6 :: zpay) ++ U)) 23 6).1.sta_height_above_floor
          = cfg.sta_height_above_floor ∧
      (decodeZcase (decodeLCIfield defaultConfig
          ([1, 0, 8] ++ (0 :: 16 :: payload) ++ ((4 :: 6 :: zpay) ++ U)) 40).1
        ([1, 0, 8] ++ (0 :: 16 :: payload) ++
          ((4 :: 6 :: zpay) ++ U)) 23 6).1.sta_height_above_floor_uncertainty
          = cfg.sta_height_above_floor_uncertainty := by
    intro U
    have hb6 := hbitsU U 6 34 (by omega)
    have hb46 := hbitsU U 46 34 (by omega)
    have hb90 := hbitsU U 90 30 (by omega)
    have hb0 := hbitsU U 0 6 (by omega)
    have hb40 := hbitsU U 40 6 (by omega)
    have hb84 := hbitsU U 84 6 (by omega)
    have hn23 := hn23U U
    have hn25 := hn25U U
    have ho28 := ho28U U
    rw [Nat.add_zero] at hb0
    generalize hBUF : ([1, 0, 8] : Buf) ++ (0 :: 16 :: payload) ++ ((4 :: 6 :: zpay) ++ U)
      = BUF at hb6 hb46 hb90 hb0 hb40 hb84 hn23 hn25 ho28 ⊢
    rw [hg1] at hb0
    rw [hg2] at hb40
    rw [hg3c] at hb84
    obtain ⟨llat, llon, lalt, lnext, -, -, -, -⟩ :=
      decodeLCIfield_spec defaultConfig BUF 40
    obtain ⟨u1, u2, u3⟩ := decodeLCIfield_unc_inrange defaultConfig BUF 40
      (by rw [hb0]; omega) (by rw [hb40]; omega) (by rw [hb84]; omega)
    obtain ⟨zfl, zhe, zhu, znext, zlat, zlon, zalt, zluc, zlouc, zauc, zbs⟩ :=
      decodeZcase_spec (decodeLCIfield defaultConfig BUF 40).1 BUF 23
    refine ⟨?_, ?_, ?_, ?_, ?_, ?_, ?_, ?_, ?_⟩
    · rw [zlat, llat, hb6, hglat, hlatval, ← hla]
    · rw [zlon, llon, hb46, hglon, hlonval, ← hlo]
    · rw [zalt, lalt, hb90, hgalt, haltval, ← hal]
    · rw [zluc, u1, hb0, if_neg (show ¬ c1 = 0 from by omega),
        show decodebinarydot c1 8 = (2 : ℚ) ^ ((8 : ℤ) - (c1 : ℤ)) from rfl, ← hu1]
    · rw [zlouc, u2, hb40, if_neg (show ¬ c2 = 0 from by omega),
        show decodebinarydot c2 8 = (2 : ℚ) ^ ((8 : ℤ) - (c2 : ℤ)) from rfl, ← hu2]
    · rw [zauc, u3, hb84, if_neg (show ¬ c3 = 0 from by omega),
        show decodebinarydot c3 21 = (2 : ℚ) ^ ((21 : ℤ) - (c3 : ℤ)) from rfl, ← hu3]
    · rw [zfl, hn23, hv2, show (e + 4 * f) / 4 = f from by omega, ← hfl]
    · rw [zhe, show (23 : ℕ) + 2 = 25 from rfl, hn25, hv3, ← hhe]
    · rw [zhu, show (23 : ℕ) + 5 = 28 from rfl, ho28, hv1,
        if_pos (show 0 < c4 from by omega),
        show decodebinarydot c4 11 = (2 : ℚ) ^ ((11 : ℤ) - (c4 : ℤ)) from rfl, ← hu4]
  have hg29U : ∀ (x : ℕ) (rest : Buf),
      getoctet ([1, 0, 8] ++ (0 :: 16 :: payload) ++ ((4 :: 6 :: zpay) ++ (x :: rest))) 29
        = x := by
    intro x rest
    have hre : ([1, 0, 8] : Buf) ++ (0 :: 16 :: payload) ++ ((4 :: 6 :: zpay) ++ (x :: rest)) =
        ([1, 0, 8, 0, 16] ++ payload ++ ([4, 6] ++ zpay)) ++ (x :: rest) ++ ([] : Buf) := by
      simp
    rw [hre]
    have := getoctet_middle ([1, 0, 8, 0, 16] ++ payload ++ ([4, 6] ++ zpay)) (x :: rest) [] 0
      (by simp)
    simpa [hplen, hzplen, getoctet] using this
  have hg30U : ∀ (x y : ℕ) (rest : Buf),
      getoctet ([1, 0, 8] ++ (0 :: 16 :: payload) ++ ((4 :: 6 :: zpay) ++ (x :: y :: rest)))
        (29 + 1) = y := by
    intro x y rest
    have hre : ([1, 0, 8] : Buf) ++ (0 :: 16 :: payload) ++
        ((4 :: 6 :: zpay) ++ (x :: y :: rest)) =
        ([1, 0, 8, 0, 16] ++ payload ++ ([4, 6] ++ zpay)) ++ (x :: y :: rest) ++ ([] : Buf) := by
      simp
    rw [hre]
    have := getoctet_middle ([1, 0, 8, 0, 16] ++ payload ++ ([4, 6] ++ zpay)) (x :: y :: rest)
      [] 1 (by simp)
    simpa [hplen, hzplen, getoctet] using this
  have hneedco : ¬ (cfg.wantColocatedflag = true ∧ needBSSIDflag cfg) := by
    rintro ⟨-, hn⟩
    unfold needBSSIDflag at hn
    rw [hBS] at hn
    simp at hn
  by_cases hP4 : cfg.wantUsageflag = true ∧
      (needLCIflag cfg ∨ needZflag cfg ∨ needBSSIDflag cfg)
  · obtain ⟨nl, r2, huc, hulen, hnl⟩ := encodeUsageField_chunk cfg
    have hchunks : emittedChunks cfg =
        [(encodeLCIfield cfg).1, (encodeZfield cfg).1, (encodeUsageField cfg).1] := by
      unfold emittedChunks
      rw [if_pos hwL, if_pos hwZ, if_neg hneedco, if_pos hP4]
      simp
    have hstr : (encodeLCIstring cfg).1 =
        [1, 0, 8] ++ (0 :: 16 :: payload) ++ ((4 :: 6 :: zpay) ++ (6 :: nl :: r2)) := by
      rw [encodeLCIstring_buf cfg, hchunks, if_neg (by simp [hpc])]
      rw [show ([(encodeLCIfield cfg).1, (encodeZfield cfg).1,
        (encodeUsageField cfg).1] : List (List ℕ)).flatten =
          (encodeLCIfield cfg).1 ++ ((encodeZfield cfg).1 ++
            ((encodeUsageField cfg).1 ++ [])) from by simp]
      rw [hpc, hzc, huc]
      simp
    rw [hstr, decode_header_LCI_Z payload zpay (6 :: nl :: r2) hplen hzplen]
    rw [show ((6 : ℕ) :: nl :: r2).length = nl + 2 from by simp [hulen]]
    rw [show 29 + (nl + 2) = 31 + nl from by omega]
    rw [show 27 + (nl + 2) = 28 + nl + 1 from by omega]
    rw [decodeLoop_Usage_step _ (31 + nl) _ 29 (28 + nl) nl hnl (hg29U 6 (nl :: r2))
      (hg30U 6 nl r2) (by omega)]
    rw [decodeLoop_end _ (31 + nl) _ (29 + 2 + nl) (28 + nl) (by omega)]
    refine ⟨?_, ?_, ?_, ?_, ?_, ?_, ?_, ?_, ?_⟩
    · exact ((decodeUsageCase_preserves _ _ _ _).1).trans (hfields (6 :: nl :: r2)).1
    · exact ((decodeUsageCase_preserves _ _ _ _).2.1).trans (hfields (6 :: nl :: r2)).2.1
    · exact ((decodeUsageCase_preserves _ _ _ _).2.2.1).trans
        (hfields (6 :: nl :: r2)).2.2.1
    · exact ((decodeUsageCase_preserves _ _ _ _).2.2.2.1).trans
        (hfields (6 :: nl :: r2)).2.2.2.1
    · exact ((decodeUsageCase_preserves _ _ _ _).2.2.2.2.1).trans
        (hfields (6 :: nl :: r2)).2.2.2.2.1
    · exact ((decodeUsageCase_preserves _ _ _ _).2.2.2.2.2.1).trans
        (hfields (6 :: nl :: r2)).2.2.2.2.2.1
    · exact ((decodeUsageCase_preserves _ _ _ _).2.2.2.2.2.2.1).trans
        (hfields (6 :: nl :: r2)).2.2.2.2.2.2.1
    · exact ((decodeUsageCase_preserves _ _ _ _).2.2.2.2.2.2.2.1).trans
        (hfields (6 :: nl :: r2)).2.2.2.2.2.2.2.1
    · exact ((decodeUsageCase_preserves _ _ _ _).2.2.2.2.2.2.2.2.1).trans
        (hfields (6 :: nl :: r2)).2.2.2.2.2.2.2.2
  · have hchunks : emittedChunks cfg =
        [(encodeLCIfield cfg).1, (encodeZfield cfg).1] := by
      unfold emittedChunks
      rw [if_pos hwL, if_pos hwZ, if_neg hneedco, if_neg hP4]
      simp
    have hstr : (encodeLCIstring cfg).1 =
        [1, 0, 8] ++ (0 :: 16 :: payload) ++ ((4 :: 6 :: zpay) ++ ([] : Buf)) := by
      rw [encodeLCIstring_buf cfg, hchunks, if_neg (by simp [hpc])]
      rw [show ([(encodeLCIfield cfg).1, (encodeZfield cfg).1] : List (List ℕ)).flatten =
          (encodeLCIfield cfg).1 ++ ((encodeZfield cfg).1 ++ []) from by simp]
      rw [hpc, hzc]
      simp
    rw [hstr, decode_header_LCI_Z payload zpay ([] : Buf) hplen hzplen]
    rw [show (([] : Buf)).length = 0 from rfl]
    rw [show (29 : ℕ) + 0 = 29 from rfl, show (27 : ℕ) + 0 = 27 from rfl]
    rw [decodeLoop_end _ 29 _ 29 27 (le_refl 29)]
    exact hfields []

/-- Witness for the amended C5 at `cfgRound`. -/
theorem C5_roundtrip_witness :
    (decodeLCIstring defaultConfig (encodeLCIstring cfgRound).1).1.latitude =
      cfgRound.latitude ∧
    (decodeLCIstring defaultConfig (encodeLCIstring cfgRound).1).1.longitude =
      cfgRound.longitude ∧
    (decodeLCIstring defaultConfig (encodeLCIstring cfgRound).1).1.altitude =
      cfgRound.altitude ∧
    (decodeLCIstring defaultConfig (encodeLCIstring cfgRound).1).1.latitude_uncertainty =
      cfgRound.latitude_uncertainty ∧
    (decodeLCIstring defaultConfig (encodeLCIstring cfgRound).1).1.longitude_uncertainty =
      cfgRound.longitude_uncertainty ∧
    (decodeLCIstring defaultConfig (encodeLCIstring cfgRound).1).1.altitude_uncertainty =
      cfgRound.altitude_uncertainty ∧
    (decodeLCIstring defaultConfig (encodeLCIstring cfgRound).1).1.sta_floor =
      cfgRound.sta_floor ∧
    (decodeLCIstring defaultConfig (encodeLCIstring cfgRound).1).1.sta_height_above_floor =
      cfgRound.sta_height_above_floor ∧
    (decodeLCIstring defaultConfig
        (encodeLCIstring cfgRound).1).1.sta_height_above_floor_uncertainty =
      cfgRound.sta_height_above_floor_uncertainty :=
  C5_roundtrip cfgRound 1 (-1) 256 16 4096 0 10 10 13 4
    (by norm_num) (by norm_num) (by norm_num) (by norm_num)
    (by norm_num) (by norm_num) (by norm_num) (by norm_num)
    rfl rfl rfl
    (by norm_num [cfgRound]) (by norm_num [cfgRound]) (by norm_num [cfgRound])
    (by norm_num [cfgRound]) (by norm_num [cfgRound]) (by norm_num [cfgRound])
    (by norm_num) (by norm_num) (by norm_num [cfgRound])
    (by norm_num) (by norm_num) (by norm_num [cfgRound])
    (by norm_num) (by norm_num) (by norm_num [cfgRound])
    (by norm_num) (by norm_num) (by norm_num [cfgRound])
